import Mathlib

/-!
# backupify-sftp: a trace model of `cmd/backupify-sftp/main.go`

The program is embedded with explicit state passing.  The state (`World`) is the
history of calls the process has made to its environment (`trace`) together with the
content of the local files.  Every call that leaves the program (the operating
system, the SSH and SFTP libraries, the JSON decoder) is answered by an `Env`, a
family of functions of the current `World`, so that an answer may depend on
everything that happened before.  Go `error` values are modelled by their message
(`Option String`, `none` for `nil`).

`path.Join`, `filepath.Join` and `filepath.Base` belong to the Go standard library;
they are modelled on lists of characters after their Unix definitions.
-/

namespace Backupify

/-! ## Data model -/

/-- The bytes of a file. -/
abbrev Bytes := List Nat

/-- The struct `Config` of main.go. -/
structure Config where
  SFTPHost : String
  SFTPUser : String
  SFTPPassword : String
  SFTPDirectory : String
  LocalDirectory : String
deriving DecidableEq

/-- The zero value of `Config` (`var config Config`). -/
def Config.zero : Config := Config.mk "" "" "" "" ""

/-- What main.go reads of an `os.FileInfo` returned by `client.ReadDir`. -/
structure FileInfo where
  Name : String
  IsDir : Bool
deriving DecidableEq

/-- One observable action of the process, in the order of main.go. -/
inductive Event where
  /-- The call `os.Open(filename)` in `loadConfig`. -/
  | osOpen (filename : String) (ok : Bool)
  /-- The call `decoder.Decode(&config)`. -/
  | jsonDecode (ok : Bool)
  /-- The deferred `file.Close()` of `loadConfig`. -/
  | fileClose (filename : String)
  /-- The call `ssh.Dial("tcp", host, sshConfig)`. -/
  | sshDial (host user : String) (ok : Bool)
  /-- The call `sftp.NewClient(conn)`. -/
  | sftpNewClient (ok : Bool)
  /-- The call `client.Close()`, which ends the SFTP session; nothing in main.go closes the
  SSH connection returned by `ssh.Dial`. -/
  | clientClose
  /-- The call `client.ReadDir(dir)`. -/
  | readDir (dir : String) (ok : Bool)
  /-- The call `os.MkdirAll(dir, os.ModePerm)`. -/
  | mkdirAll (dir : String) (ok : Bool)
  /-- Entry into `downloadFile(client, remotePath, localPath)`: one transfer attempt. -/
  | downloadFileCall (remotePath localPath : String)
  /-- The call `client.Open(remotePath)`. -/
  | clientOpen (remotePath : String) (ok : Bool)
  /-- The call `os.Create(localPath)`. -/
  | osCreate (localPath : String) (ok : Bool)
  /-- The call `srcFile.WriteTo(localFile)`. -/
  | writeTo (remotePath localPath : String) (ok : Bool)
  /-- The deferred `srcFile.Close()`. -/
  | srcFileClose (remotePath : String)
  /-- The deferred `localFile.Close()`. -/
  | localFileClose (localPath : String)
  /-- Text written by `fmt.Printf` or `fmt.Println`. -/
  | stdout (text : String)
  /-- The message of a `log.Printf` or `log.Fatalf` call (without the logger's time stamp). -/
  | logPrint (text : String)
  /-- The end of the process with the given status. -/
  | osExit (code : Nat)
deriving DecidableEq

/-- The state threaded through the program. -/
structure World where
  trace : List Event
  localFS : String → Option Bytes

/-- The world in which a process starts: no history, the given local files. -/
def World.start (fs : String → Option Bytes) : World := World.mk [] fs

/-- Record one event at the end of the history. -/
def World.emit (w : World) (e : Event) : World := World.mk (w.trace ++ [e]) w.localFS

/-- Set the content of one local file. -/
def World.write (w : World) (localPath : String) (content : Bytes) : World :=
  World.mk w.trace (fun p => if p = localPath then some content else w.localFS p)

/-- The environment: the answer to every call that leaves the program.  A failing
call answers with its error message. -/
structure Env where
  /-- Answer to `os.Open`: `none` when the file opens. -/
  osOpen : World → String → Option String
  /-- Answer to `Decode`: the record left in `config` and the error, if any. -/
  jsonDecode : World → Config × Option String
  /-- Answer to `ssh.Dial` to a host as a user with a password. -/
  sshDial : World → String → String → String → Option String
  /-- Answer to `sftp.NewClient`. -/
  sftpNewClient : World → Option String
  /-- Answer to `client.ReadDir`. -/
  readDir : World → String → Except String (List FileInfo)
  /-- Answer to `os.MkdirAll`. -/
  mkdirAll : World → String → Option String
  /-- Answer to `client.Open`: on success the bytes the remote file will deliver. -/
  clientOpen : World → String → Except String Bytes
  /-- Answer to `os.Create`. -/
  osCreate : World → String → Option String
  /-- Answer to `WriteTo` from a remote to a local path: `none` when every byte was copied,
  otherwise the number of bytes that reached the local file and the error. -/
  writeTo : World → String → String → Bytes → Option (Nat × String)

/-! ## Path functions of the Go standard library (Unix) -/

/-- The inner loop of the `..` case of `Clean`, entered after `out.w--`:
`for out.w > dotdot && out.index(out.w) != '/' { out.w-- }`. -/
def backtrack (buf : List Char) (dotdot : Nat) : Nat → Nat
  | 0 => 0
  | w + 1 =>
    if dotdot < w + 1 ∧ buf.getD (w + 1) '/' ≠ '/' then backtrack buf dotdot w else w + 1

/-- The copy loop of `Clean`: `for ; r < n && path[r] != '/'; r++ { out.append(path[r]) }`.
Returns what is left of the path and the buffer. -/
def copyElement : List Char → List Char → List Char × List Char
  | [], out => ([], out)
  | c :: t, out => if c = '/' then (c :: t, out) else copyElement t (out ++ [c])

/-- The main loop of `Clean` on the unread part of the path, the output written so far
and the index `dotdot`.  The `lazybuf` of the Go source is represented by the characters
it holds: `out` is its first `out.w` bytes.  Every round reads at least one character,
so a fuel of the length of the path is never used up. -/
def cleanLoop (rooted : Bool) : Nat → List Char → List Char → Nat → List Char × Nat
  | 0, _, out, dotdot => (out, dotdot)
  | fuel + 1, rest, out, dotdot =>
    match rest with
    | [] => (out, dotdot)
    | c :: t =>
      if c = '/' then
        cleanLoop rooted fuel t out dotdot
      else if c = '.' ∧ (t = [] ∨ t.head? = some '/') then
        cleanLoop rooted fuel t out dotdot
      else if c = '.' ∧ t.head? = some '.' ∧ (t.tail = [] ∨ t.tail.head? = some '/') then
        if dotdot < out.length then
          cleanLoop rooted fuel t.tail (out.take (backtrack out dotdot (out.length - 1))) dotdot
        else if rooted = false then
          let out1 := (if 0 < out.length then out ++ ['/'] else out) ++ ['.', '.']
          cleanLoop rooted fuel t.tail out1 out1.length
        else
          cleanLoop rooted fuel t.tail out dotdot
      else
        let out1 :=
          if (rooted = true ∧ out.length ≠ 1) ∨ (rooted = false ∧ out.length ≠ 0) then out ++ ['/']
          else out
        let r := copyElement (c :: t) out1
        cleanLoop rooted fuel r.1 r.2 dotdot

/-- The function `Clean` on the characters of a path. -/
def cleanChars (path : List Char) : List Char :=
  if path = [] then ['.']
  else
    let out :=
      if path.head? = some '/' then (cleanLoop true path.length path.tail ['/'] 1).1
      else (cleanLoop false path.length path [] 0).1
    if out.length = 0 then ['.'] else out

/-- The function `path.Clean` and, on Unix, `filepath.Clean`. -/
def Clean (path : String) : String := String.mk (cleanChars path.data)

/-- The function `strings.Join(elem, "/")` on character lists. -/
def joinSlash : List (List Char) → List Char
  | [] => []
  | [e] => e
  | e :: es => e ++ '/' :: joinSlash es

/-- The body shared by `path.Join` and the Unix `filepath.Join`: starting at the first
non-empty element, the elements joined by a slash and cleaned; the empty string when
every element is empty. -/
def joinChars : List (List Char) → List Char
  | [] => []
  | e :: es => if e ≠ [] then cleanChars (joinSlash (e :: es)) else joinChars es

/-- The function `path.Join(a, b)`. -/
def pathJoin (a b : String) : String := String.mk (joinChars [a.data, b.data])

/-- The function `filepath.Join(a, b)` on Unix. -/
def filepathJoin (a b : String) : String := String.mk (joinChars [a.data, b.data])

/-- The function `filepath.Base` on Unix, on characters: trailing slashes are stripped, the part
after the last slash is kept, an empty path gives `.` and a path of slashes gives `/`. -/
def baseChars (path : List Char) : List Char :=
  if path = [] then ['.']
  else
    let stripped := (path.reverse.dropWhile (fun c => c = '/')).reverse
    let last := (stripped.reverse.takeWhile (fun c => c ≠ '/')).reverse
    if last = [] then ['/'] else last

/-- The function `filepath.Base` on Unix. -/
def filepathBase (path : String) : String := String.mk (baseChars path.data)

/-! ## The program -/

/-- The function `log.Fatalf`: the message is logged and the process ends with `os.Exit(1)`; deferred
calls do not run. -/
def fatalf (w : World) (msg : String) : World :=
  (w.emit (Event.logPrint msg)).emit (Event.osExit 1)

/-- The function `loadConfig(filename)`. -/
def loadConfig (env : Env) (w : World) (filename : String) : World × Config × Option String :=
  match env.osOpen w filename with
  | some err => (w.emit (Event.osOpen filename false), Config.zero, some err)
  | none =>
    let w1 := w.emit (Event.osOpen filename true)
    let r := env.jsonDecode w1
    let w2 := w1.emit (Event.jsonDecode r.2.isNone)
    (w2.emit (Event.fileClose filename), r.1, r.2)

/-- The function `connectSFTP(config)`; the client is the one session of the run, so only the error
is returned. -/
def connectSFTP (env : Env) (w : World) (config : Config) : World × Option String :=
  match env.sshDial w config.SFTPHost config.SFTPUser config.SFTPPassword with
  | some err =>
    (w.emit (Event.sshDial config.SFTPHost config.SFTPUser false),
      some ("failed to connect to SFTP server: " ++ err))
  | none =>
    let w1 := w.emit (Event.sshDial config.SFTPHost config.SFTPUser true)
    match env.sftpNewClient w1 with
    | some err => (w1.emit (Event.sftpNewClient false), some ("failed to create SFTP client: " ++ err))
    | none => (w1.emit (Event.sftpNewClient true), none)

/-- The function `downloadFile(client, remotePath, localPath)`.  `os.Create` creates or truncates the
file; `WriteTo` writes from its start. -/
def downloadFile (env : Env) (w : World) (remotePath localPath : String) : World × Option String :=
  let w0 := w.emit (Event.downloadFileCall remotePath localPath)
  match env.clientOpen w0 remotePath with
  | Except.error err =>
    (w0.emit (Event.clientOpen remotePath false), some ("failed to open remote file: " ++ err))
  | Except.ok bytes =>
    let w1 := w0.emit (Event.clientOpen remotePath true)
    match env.osCreate w1 localPath with
    | some err =>
      let w2 := w1.emit (Event.osCreate localPath false)
      (w2.emit (Event.srcFileClose remotePath), some ("failed to creatae local file: " ++ err))
    | none =>
      let w2 := (w1.emit (Event.osCreate localPath true)).write localPath []
      match env.writeTo w2 remotePath localPath bytes with
      | some (n, err) =>
        let w3 := (w2.emit (Event.writeTo remotePath localPath false)).write localPath (bytes.take n)
        ((w3.emit (Event.localFileClose localPath)).emit (Event.srcFileClose remotePath),
          some ("failed to download file: " ++ err))
      | none =>
        let w3 := (w2.emit (Event.writeTo remotePath localPath true)).write localPath bytes
        ((w3.emit (Event.localFileClose localPath)).emit (Event.srcFileClose remotePath), none)

/-- The line printed before a transfer. -/
def downloadingLine (remotePath localPath : String) : String :=
  "Downloading " ++ remotePath ++ " -> " ++ localPath ++ "\n"

/-- The message logged after a failed transfer. -/
def failedLine (remotePath err : String) : String :=
  "Failed to download " ++ remotePath ++ ": " ++ err

/-- The line printed at the end of a run. -/
def completedLine : String := "Download completed\n"

/-- The `for _, file := range files` loop of `main`. -/
def mainLoop (env : Env) (config : Config) : List FileInfo → World → World
  | [], w => w
  | file :: rest, w =>
    if file.IsDir = false then
      let remotePath := pathJoin config.SFTPDirectory file.Name
      let localPath := filepathJoin config.LocalDirectory file.Name
      let w1 := w.emit (Event.stdout (downloadingLine remotePath localPath))
      let r := downloadFile env w1 remotePath localPath
      match r.2 with
      | some err => mainLoop env config rest (r.1.emit (Event.logPrint (failedLine remotePath err)))
      | none => mainLoop env config rest r.1
    else
      mainLoop env config rest w

/-- The function `main`.  A fatal error ends the process inside `log.Fatalf`; a return
from `main` runs the deferred `client.Close()` and ends the process with status 0. -/
def main (env : Env) (w : World) : World :=
  let c := loadConfig env w "config.json"
  match c.2.2 with
  | some err => fatalf c.1 ("Failed config loading: " ++ err)
  | none =>
    let config := c.2.1
    let s := connectSFTP env c.1 config
    match s.2 with
    | some err => fatalf s.1 ("SFTP connection failure: " ++ err)
    | none =>
      match env.readDir s.1 config.SFTPDirectory with
      | Except.error err =>
        fatalf (s.1.emit (Event.readDir config.SFTPDirectory false))
          ("Read directory " ++ config.SFTPDirectory ++ " failed: " ++ err)
      | Except.ok files =>
        let w1 := s.1.emit (Event.readDir config.SFTPDirectory true)
        match env.mkdirAll w1 config.LocalDirectory with
        | some err =>
          fatalf (w1.emit (Event.mkdirAll config.LocalDirectory false))
            ("Failed to create local directory: " ++ err)
        | none =>
          let w2 := w1.emit (Event.mkdirAll config.LocalDirectory true)
          let w3 := mainLoop env config files w2
          let w4 := w3.emit (Event.stdout completedLine)
          (w4.emit Event.clientClose).emit (Event.osExit 0)

/-! ## Example environment -/

/-- A configuration naming the remote directory `/backups` and the local directory `./out`. -/
def exampleConfig : Config := Config.mk "host:22" "user" "secret" "/backups" "./out"

/-- The listing `a.txt` (file), `logs` (directory), `b.txt` (file). -/
def exampleListing : List FileInfo :=
  [FileInfo.mk "a.txt" false, FileInfo.mk "logs" true, FileInfo.mk "b.txt" false]

/-- An environment in which every call succeeds; every remote file holds `[1, 2, 3]`. -/
def exampleEnv : Env where
  osOpen := fun _ _ => none
  jsonDecode := fun _ => (exampleConfig, none)
  sshDial := fun _ _ _ _ => none
  sftpNewClient := fun _ => none
  readDir := fun _ _ => Except.ok exampleListing
  mkdirAll := fun _ _ => none
  clientOpen := fun _ _ => Except.ok [1, 2, 3]
  osCreate := fun _ _ => none
  writeTo := fun _ _ _ _ => none

/-- An environment like `exampleEnv` in which `/backups/a.txt` cannot be opened. -/
def deniedEnv : Env where
  osOpen := fun _ _ => none
  jsonDecode := fun _ => (exampleConfig, none)
  sshDial := fun _ _ _ _ => none
  sftpNewClient := fun _ => none
  readDir := fun _ _ => Except.ok exampleListing
  mkdirAll := fun _ _ => none
  clientOpen := fun _ p => if p = "/backups/a.txt" then Except.error "permission denied" else Except.ok [1, 2, 3]
  osCreate := fun _ _ => none
  writeTo := fun _ _ _ _ => none

/-- An environment in which no configuration file exists. -/
def noConfigEnv : Env where
  osOpen := fun _ _ => some "no such file or directory"
  jsonDecode := fun _ => (exampleConfig, none)
  sshDial := fun _ _ _ _ => none
  sftpNewClient := fun _ => none
  readDir := fun _ _ => Except.ok exampleListing
  mkdirAll := fun _ _ => none
  clientOpen := fun _ _ => Except.ok [1, 2, 3]
  osCreate := fun _ _ => none
  writeTo := fun _ _ _ _ => none

/-- An environment in which the server refuses the connection. -/
def noDialEnv : Env where
  osOpen := fun _ _ => none
  jsonDecode := fun _ => (exampleConfig, none)
  sshDial := fun _ _ _ _ => some "connection refused"
  sftpNewClient := fun _ => none
  readDir := fun _ _ => Except.ok exampleListing
  mkdirAll := fun _ _ => none
  clientOpen := fun _ _ => Except.ok [1, 2, 3]
  osCreate := fun _ _ => none
  writeTo := fun _ _ _ _ => none

/-- An environment in which the SSH connection opens and the SFTP session does not. -/
def noSessionEnv : Env where
  osOpen := fun _ _ => none
  jsonDecode := fun _ => (exampleConfig, none)
  sshDial := fun _ _ _ _ => none
  sftpNewClient := fun _ => some "subsystem request failed"
  readDir := fun _ _ => Except.ok exampleListing
  mkdirAll := fun _ _ => none
  clientOpen := fun _ _ => Except.ok [1, 2, 3]
  osCreate := fun _ _ => none
  writeTo := fun _ _ _ _ => none

/-- An environment in which the remote directory cannot be read. -/
def noListingEnv : Env where
  osOpen := fun _ _ => none
  jsonDecode := fun _ => (exampleConfig, none)
  sshDial := fun _ _ _ _ => none
  sftpNewClient := fun _ => none
  readDir := fun _ _ => Except.error "file does not exist"
  mkdirAll := fun _ _ => none
  clientOpen := fun _ _ => Except.ok [1, 2, 3]
  osCreate := fun _ _ => none
  writeTo := fun _ _ _ _ => none

/-- An environment in which the local directory cannot be created. -/
def noMkdirEnv : Env where
  osOpen := fun _ _ => none
  jsonDecode := fun _ => (exampleConfig, none)
  sshDial := fun _ _ _ _ => none
  sftpNewClient := fun _ => none
  readDir := fun _ _ => Except.ok exampleListing
  mkdirAll := fun _ _ => some "permission denied"
  clientOpen := fun _ _ => Except.ok [1, 2, 3]
  osCreate := fun _ _ => none
  writeTo := fun _ _ _ _ => none

/-- An environment whose listing holds one regular file reported under the name `..`. -/
def dotdotEnv : Env where
  osOpen := fun _ _ => none
  jsonDecode := fun _ => (exampleConfig, none)
  sshDial := fun _ _ _ _ => none
  sftpNewClient := fun _ => none
  readDir := fun _ _ => Except.ok [FileInfo.mk ".." false]
  mkdirAll := fun _ _ => none
  clientOpen := fun _ _ => Except.ok [1, 2, 3]
  osCreate := fun _ _ => some "is a directory"
  writeTo := fun _ _ _ _ => none

/-- A local file system without files. -/
def emptyFS : String → Option Bytes := fun _ => none

/-! ## Observations on a run -/

/-- One execution of the process from the given local files. -/
def run (env : Env) (fs : String → Option Bytes) : World := main env (World.start fs)

/-- The transfer attempts of a history: the calls of `downloadFile`, in order, each with
its remote and its local path. -/
def attempts : List Event → List (String × String)
  | [] => []
  | Event.downloadFileCall r l :: t => (r, l) :: attempts t
  | _ :: t => attempts t

/-- The lines written to standard output, in order. -/
def stdoutLines : List Event → List String
  | [] => []
  | Event.stdout s :: t => s :: stdoutLines t
  | _ :: t => stdoutLines t

/-- The messages given to the logger, in order. -/
def logLines : List Event → List String
  | [] => []
  | Event.logPrint s :: t => s :: logLines t
  | _ :: t => logLines t

/-- The transfers whose copy went through (`WriteTo` returned no error), in order. -/
def copied : List Event → List (String × String)
  | [] => []
  | Event.writeTo r l true :: t => (r, l) :: copied t
  | _ :: t => copied t

/-- The part of a history made of output (standard output and log) and of transfer attempts. -/
def observed : List Event → List Event
  | [] => []
  | Event.stdout s :: t => Event.stdout s :: observed t
  | Event.logPrint s :: t => Event.logPrint s :: observed t
  | Event.downloadFileCall r l :: t => Event.downloadFileCall r l :: observed t
  | _ :: t => observed t

/-- The stage of the run an operation belongs to: 1 load the configuration, 2 connect,
3 list the remote directory, 4 create the local directory, 5 transfer.  Output and the
end of the process belong to no stage. -/
def Event.stage? : Event → Option Nat
  | Event.osOpen _ _ => some 1
  | Event.jsonDecode _ => some 1
  | Event.fileClose _ => some 1
  | Event.sshDial _ _ _ => some 2
  | Event.sftpNewClient _ => some 2
  | Event.readDir _ _ => some 3
  | Event.mkdirAll _ _ => some 4
  | Event.downloadFileCall _ _ => some 5
  | Event.clientOpen _ _ => some 5
  | Event.osCreate _ _ => some 5
  | Event.writeTo _ _ _ => some 5
  | Event.srcFileClose _ => some 5
  | Event.localFileClose _ => some 5
  | Event.stdout _ => none
  | Event.logPrint _ => none
  | Event.clientClose => none
  | Event.osExit _ => none

/-- The stages of the operations of a history, in order. -/
def stages (t : List Event) : List Nat := t.filterMap Event.stage?

/-- A file handle of `downloadFile`. -/
inductive Handle where
  | remote (path : String)
  | localFile (path : String)
deriving DecidableEq

/-- What happens to a file handle. -/
inductive HandleOp where
  | opened (h : Handle)
  | closed (h : Handle)
deriving DecidableEq

/-- The openings and closings of file handles in a history: a handle is opened by a
successful `client.Open` or `os.Create`. -/
def handleOps : List Event → List HandleOp
  | [] => []
  | Event.clientOpen r true :: t => HandleOp.opened (Handle.remote r) :: handleOps t
  | Event.osCreate l true :: t => HandleOp.opened (Handle.localFile l) :: handleOps t
  | Event.srcFileClose r :: t => HandleOp.closed (Handle.remote r) :: handleOps t
  | Event.localFileClose l :: t => HandleOp.closed (Handle.localFile l) :: handleOps t
  | _ :: t => handleOps t

/-- The first three stages succeed from the local files `fs`: `loadConfig` returns
`config` without error, `connectSFTP` returns no error and `client.ReadDir` returns `files`. -/
def Listed (env : Env) (fs : String → Option Bytes) (config : Config) (files : List FileInfo) : Prop :=
  (loadConfig env (World.start fs) "config.json").2 = (config, none) ∧
  (connectSFTP env (loadConfig env (World.start fs) "config.json").1 config).2 = none ∧
  env.readDir (connectSFTP env (loadConfig env (World.start fs) "config.json").1 config).1
    config.SFTPDirectory = Except.ok files

/-- The world in which `main` calls `os.MkdirAll`, when the first three stages succeeded. -/
def listedWorld (env : Env) (fs : String → Option Bytes) (config : Config) : World :=
  (connectSFTP env (loadConfig env (World.start fs) "config.json").1 config).1.emit
    (Event.readDir config.SFTPDirectory true)

/-- The world in which `main` enters its loop, when `os.MkdirAll` succeeded too. -/
def loopStart (env : Env) (fs : String → Option Bytes) (config : Config) : World :=
  (listedWorld env fs config).emit (Event.mkdirAll config.LocalDirectory true)

/-- The calls of `downloadFile` made by the loop from the world `w`: for each, the remote
path, the local path and the error returned (`none` for `nil`). -/
def loopResults (env : Env) (config : Config) : List FileInfo → World → List (String × String × Option String)
  | [], _ => []
  | file :: rest, w =>
    if file.IsDir = false then
      let remotePath := pathJoin config.SFTPDirectory file.Name
      let localPath := filepathJoin config.LocalDirectory file.Name
      let r := downloadFile env (w.emit (Event.stdout (downloadingLine remotePath localPath)))
        remotePath localPath
      match r.2 with
      | some err =>
        (remotePath, localPath, some err) ::
          loopResults env config rest (r.1.emit (Event.logPrint (failedLine remotePath err)))
      | none => (remotePath, localPath, none) :: loopResults env config rest r.1
    else
      loopResults env config rest w

/-- What the loop lets be seen of one call of `downloadFile`: the line announcing it, the
call, and the failure message when it returned an error. -/
def observedOf (x : String × String × Option String) : List Event :=
  Event.stdout (downloadingLine x.1 x.2.1) :: Event.downloadFileCall x.1 x.2.1 ::
    (match x.2.2 with
     | some err => [Event.logPrint (failedLine x.1 err)]
     | none => [])

/-- The listing without its directories. -/
def regularFiles (files : List FileInfo) : List FileInfo := files.filter (fun f => f.IsDir = false)

/-- The remote and the local path `main` computes for an entry. -/
def pathsOf (config : Config) (file : FileInfo) : String × String :=
  (pathJoin config.SFTPDirectory file.Name, filepathJoin config.LocalDirectory file.Name)

/-- The answers of the environment do not depend on the history: the configuration file,
the server, the remote directory and the local permissions are the same at every call. -/
def Env.Stable (env : Env) : Prop :=
  ∀ w1 w2 : World,
    env.osOpen w1 = env.osOpen w2 ∧ env.jsonDecode w1 = env.jsonDecode w2 ∧
    env.sshDial w1 = env.sshDial w2 ∧ env.sftpNewClient w1 = env.sftpNewClient w2 ∧
    env.readDir w1 = env.readDir w2 ∧ env.mkdirAll w1 = env.mkdirAll w2 ∧
    env.clientOpen w1 = env.clientOpen w2 ∧ env.osCreate w1 = env.osCreate w2 ∧
    env.writeTo w1 = env.writeTo w2

/-- A name that is one path element: not empty, without a slash, neither `.` nor `..`. -/
def SimpleName (name : String) : Prop :=
  name.data ≠ [] ∧ '/' ∉ name.data ∧ name.data ≠ ['.'] ∧ name.data ≠ ['.', '.']

/-- The path of the entry `name` directly inside the directory `dir`: the cleaned
directory, one slash unless the directory is the root or the current directory, the name. -/
def directlyInside (dir name : String) : String :=
  if Clean dir = "." then name
  else if Clean dir = "/" then "/" ++ name
  else Clean dir ++ "/" ++ name

/-- Local files in which `out/a.txt` already exists with four bytes. -/
def staleFS : String → Option Bytes := fun p => if p = "out/a.txt" then some [9, 9, 9, 9] else none

/-- What the loop of `Clean` keeps true of its output and of `dotdot`.  On a rooted path
the output starts with the slash and `dotdot` is 1.  On a path that is not rooted the
output does not start with a slash and its first element is not `.`, and `dotdot` is 0
or follows a leading `..`. -/
def CleanInv (rooted : Bool) (out : List Char) (dd : Nat) : Prop :=
  if rooted = true then dd = 1 ∧ out.head? = some '/'
  else (dd = 0 ∨ 2 ≤ dd) ∧ out.head? ≠ some '/' ∧ out ≠ ['.'] ∧ ∀ t, out ≠ '.' :: '/' :: t

/-- An environment that follows a script: the configuration is `config`, the listing is
`files`, and the call of `downloadFile` number `i` (from 0) fails at `client.Open` exactly
when entry `i` of `fails` is `true`; every other call succeeds. -/
def scriptedEnv (config : Config) (files : List FileInfo) (fails : List Bool) : Env where
  osOpen := fun _ _ => none
  jsonDecode := fun _ => (config, none)
  sshDial := fun _ _ _ _ => none
  sftpNewClient := fun _ => none
  readDir := fun _ _ => Except.ok files
  mkdirAll := fun _ _ => none
  clientOpen := fun w _ =>
    if fails.getD ((attempts w.trace).length - 1) false = true then Except.error "denied"
    else Except.ok []
  osCreate := fun _ _ => none
  writeTo := fun _ _ _ _ => none

/-- An environment with the configuration, the listing and the remote bytes of
`exampleEnv` at every call, in which the copy of `/backups/a.txt` breaks after one byte
once `out/b.txt` exists locally, that is, in any run after the first. -/
def brokenCopyEnv : Env where
  osOpen := fun _ _ => none
  jsonDecode := fun _ => (exampleConfig, none)
  sshDial := fun _ _ _ _ => none
  sftpNewClient := fun _ => none
  readDir := fun _ _ => Except.ok exampleListing
  mkdirAll := fun _ _ => none
  clientOpen := fun _ _ => Except.ok [1, 2, 3]
  osCreate := fun _ _ => none
  writeTo := fun w r _ _ =>
    if r = "/backups/a.txt" ∧ (w.localFS "out/b.txt").isSome = true then some (1, "connection lost")
    else none

/-! ## Basic facts -/

@[simp] theorem emit_trace (w : World) (e : Event) : (w.emit e).trace = w.trace ++ [e] := rfl

@[simp] theorem emit_localFS (w : World) (e : Event) : (w.emit e).localFS = w.localFS := rfl

@[simp] theorem write_trace (w : World) (p : String) (b : Bytes) : (w.write p b).trace = w.trace := rfl

@[simp] theorem start_trace (fs : String → Option Bytes) : (World.start fs).trace = [] := rfl

@[simp] theorem start_localFS (fs : String → Option Bytes) : (World.start fs).localFS = fs := rfl

theorem attempts_append (s t : List Event) : attempts (s ++ t) = attempts s ++ attempts t := by
  induction s with
  | nil => rfl
  | cons e s ih => cases e <;> simp [attempts, ih]

theorem stdoutLines_append (s t : List Event) :
    stdoutLines (s ++ t) = stdoutLines s ++ stdoutLines t := by
  induction s with
  | nil => rfl
  | cons e s ih => cases e <;> simp [stdoutLines, ih]

theorem logLines_append (s t : List Event) : logLines (s ++ t) = logLines s ++ logLines t := by
  induction s with
  | nil => rfl
  | cons e s ih => cases e <;> simp [logLines, ih]

theorem copied_append (s t : List Event) : copied (s ++ t) = copied s ++ copied t := by
  induction s with
  | nil => rfl
  | cons e s ih =>
    cases e with
    | writeTo r l ok => cases ok <;> simp [copied, ih]
    | _ => simp [copied, ih]

theorem observed_append (s t : List Event) : observed (s ++ t) = observed s ++ observed t := by
  induction s with
  | nil => rfl
  | cons e s ih => cases e <;> simp [observed, ih]

theorem handleOps_append (s t : List Event) : handleOps (s ++ t) = handleOps s ++ handleOps t := by
  induction s with
  | nil => rfl
  | cons e s ih =>
    cases e with
    | clientOpen r ok => cases ok <;> simp [handleOps, ih]
    | osCreate r ok => cases ok <;> simp [handleOps, ih]
    | _ => simp [handleOps, ih]

theorem stages_append (s t : List Event) : stages (s ++ t) = stages s ++ stages t := by
  simp [stages]

/-! ## The stages before the loop -/

theorem loadConfig_ok (env : Env) (w : World) (f : String) (config : Config)
    (h : (loadConfig env w f).2 = (config, none)) :
    (loadConfig env w f).1.trace
        = w.trace ++ [Event.osOpen f true, Event.jsonDecode true, Event.fileClose f] ∧
      (loadConfig env w f).1.localFS = w.localFS := by
  unfold loadConfig at h ⊢
  cases ho : env.osOpen w f with
  | some err => simp [ho] at h
  | none =>
    simp only [ho] at h ⊢
    have h2 : (env.jsonDecode (w.emit (Event.osOpen f true))).2 = none := by
      have := congrArg Prod.snd h
      simpa using this
    simp [h2]

theorem connectSFTP_ok (env : Env) (w : World) (config : Config)
    (h : (connectSFTP env w config).2 = none) :
    (connectSFTP env w config).1.trace
        = w.trace ++ [Event.sshDial config.SFTPHost config.SFTPUser true, Event.sftpNewClient true] ∧
      (connectSFTP env w config).1.localFS = w.localFS := by
  unfold connectSFTP at h ⊢
  cases hd : env.sshDial w config.SFTPHost config.SFTPUser config.SFTPPassword with
  | some err => simp [hd] at h
  | none =>
    simp only [hd] at h ⊢
    cases hn : env.sftpNewClient (w.emit (Event.sshDial config.SFTPHost config.SFTPUser true)) with
    | some err => simp [hn] at h
    | none => simp

theorem listedWorld_trace (env : Env) (fs : String → Option Bytes) (config : Config)
    (files : List FileInfo) (h : Listed env fs config files) :
    (listedWorld env fs config).trace =
      [Event.osOpen "config.json" true, Event.jsonDecode true, Event.fileClose "config.json",
        Event.sshDial config.SFTPHost config.SFTPUser true, Event.sftpNewClient true,
        Event.readDir config.SFTPDirectory true] ∧
      (listedWorld env fs config).localFS = fs := by
  obtain ⟨h1, h2, _⟩ := h
  have a := loadConfig_ok env (World.start fs) "config.json" config h1
  have b := connectSFTP_ok env _ config h2
  simp [listedWorld, a.1, a.2, b.1, b.2]

theorem run_of_mkdir_ok (env : Env) (fs : String → Option Bytes) (config : Config)
    (files : List FileInfo) (h : Listed env fs config files)
    (hm : env.mkdirAll (listedWorld env fs config) config.LocalDirectory = none) :
    run env fs =
      (((mainLoop env config files (loopStart env fs config)).emit (Event.stdout completedLine)).emit
        Event.clientClose).emit (Event.osExit 0) := by
  obtain ⟨h1, h2, h3⟩ := h
  have c1 : (loadConfig env (World.start fs) "config.json").2.1 = config := by rw [h1]
  have c2 : (loadConfig env (World.start fs) "config.json").2.2 = none := by rw [h1]
  unfold listedWorld at hm
  simp only [run, main, c1, c2, h2, h3, hm, loopStart, listedWorld]

theorem run_of_mkdir_error (env : Env) (fs : String → Option Bytes) (config : Config)
    (files : List FileInfo) (err : String) (h : Listed env fs config files)
    (hm : env.mkdirAll (listedWorld env fs config) config.LocalDirectory = some err) :
    run env fs =
      fatalf ((listedWorld env fs config).emit (Event.mkdirAll config.LocalDirectory false))
        ("Failed to create local directory: " ++ err) := by
  obtain ⟨h1, h2, h3⟩ := h
  have c1 : (loadConfig env (World.start fs) "config.json").2.1 = config := by rw [h1]
  have c2 : (loadConfig env (World.start fs) "config.json").2.2 = none := by rw [h1]
  unfold listedWorld at hm
  simp only [run, main, c1, c2, h2, h3, hm, listedWorld]

/-! ## The loop -/

theorem mainLoop_cons_dir (env : Env) (config : Config) (f : FileInfo) (rest : List FileInfo)
    (w : World) (hf : f.IsDir = true) :
    mainLoop env config (f :: rest) w = mainLoop env config rest w := by
  simp [mainLoop, hf]

theorem mainLoop_regularFiles (env : Env) (config : Config) (files : List FileInfo) (w : World) :
    mainLoop env config files w = mainLoop env config (regularFiles files) w := by
  induction files generalizing w with
  | nil => rfl
  | cons f rest ih =>
    cases hf : f.IsDir with
    | true =>
      rw [mainLoop_cons_dir env config f rest w hf, ih]
      simp [regularFiles, hf]
    | false =>
      have e : regularFiles (f :: rest) = f :: regularFiles rest := by simp [regularFiles, hf]
      rw [e]
      simp only [mainLoop, hf, if_true]
      split
      · rw [ih]
      · rw [ih]

theorem mainLoop_append (env : Env) (config : Config) (pre post : List FileInfo) (w : World) :
    mainLoop env config (pre ++ post) w = mainLoop env config post (mainLoop env config pre w) := by
  induction pre generalizing w with
  | nil => rfl
  | cons f rest ih =>
    show mainLoop env config (f :: (rest ++ post)) w = _
    simp only [mainLoop]
    split
    · split <;> rw [ih]
    · rw [ih]

/-! ## The four outcomes of `downloadFile` -/

theorem downloadFile_open_error (env : Env) (w : World) (r l err : String)
    (h1 : env.clientOpen (w.emit (Event.downloadFileCall r l)) r = Except.error err) :
    downloadFile env w r l =
      ((w.emit (Event.downloadFileCall r l)).emit (Event.clientOpen r false),
        some ("failed to open remote file: " ++ err)) := by
  simp only [downloadFile, h1]

theorem downloadFile_create_error (env : Env) (w : World) (r l err : String) (bytes : Bytes)
    (h1 : env.clientOpen (w.emit (Event.downloadFileCall r l)) r = Except.ok bytes)
    (h2 : env.osCreate ((w.emit (Event.downloadFileCall r l)).emit (Event.clientOpen r true)) l
      = some err) :
    downloadFile env w r l =
      ((((w.emit (Event.downloadFileCall r l)).emit (Event.clientOpen r true)).emit
          (Event.osCreate l false)).emit (Event.srcFileClose r),
        some ("failed to creatae local file: " ++ err)) := by
  simp only [downloadFile, h1, h2]

theorem downloadFile_copy_error (env : Env) (w : World) (r l err : String) (bytes : Bytes) (n : Nat)
    (h1 : env.clientOpen (w.emit (Event.downloadFileCall r l)) r = Except.ok bytes)
    (h2 : env.osCreate ((w.emit (Event.downloadFileCall r l)).emit (Event.clientOpen r true)) l
      = none)
    (h3 : env.writeTo ((((w.emit (Event.downloadFileCall r l)).emit (Event.clientOpen r true)).emit
      (Event.osCreate l true)).write l []) r l bytes = some (n, err)) :
    downloadFile env w r l =
      ((((((((w.emit (Event.downloadFileCall r l)).emit (Event.clientOpen r true)).emit
          (Event.osCreate l true)).write l []).emit (Event.writeTo r l false)).write l
          (bytes.take n)).emit (Event.localFileClose l)).emit (Event.srcFileClose r),
        some ("failed to download file: " ++ err)) := by
  simp only [downloadFile, h1, h2, h3]

theorem downloadFile_success (env : Env) (w : World) (r l : String) (bytes : Bytes)
    (h1 : env.clientOpen (w.emit (Event.downloadFileCall r l)) r = Except.ok bytes)
    (h2 : env.osCreate ((w.emit (Event.downloadFileCall r l)).emit (Event.clientOpen r true)) l
      = none)
    (h3 : env.writeTo ((((w.emit (Event.downloadFileCall r l)).emit (Event.clientOpen r true)).emit
      (Event.osCreate l true)).write l []) r l bytes = none) :
    downloadFile env w r l =
      ((((((((w.emit (Event.downloadFileCall r l)).emit (Event.clientOpen r true)).emit
          (Event.osCreate l true)).write l []).emit (Event.writeTo r l true)).write l
          bytes).emit (Event.localFileClose l)).emit (Event.srcFileClose r), none) := by
  simp only [downloadFile, h1, h2, h3]

/-- Every call of `downloadFile` ends in one of four ways, told apart by the answers of
the environment; the events it adds to the history are the listed ones. -/
theorem downloadFile_cases (env : Env) (w : World) (r l : String) :
    (∃ err, downloadFile env w r l =
        (World.mk (w.trace ++ [Event.downloadFileCall r l, Event.clientOpen r false]) w.localFS,
          some ("failed to open remote file: " ++ err))) ∨
    (∃ err, downloadFile env w r l =
        (World.mk (w.trace ++ [Event.downloadFileCall r l, Event.clientOpen r true,
            Event.osCreate l false, Event.srcFileClose r]) w.localFS,
          some ("failed to creatae local file: " ++ err))) ∨
    (∃ err content, downloadFile env w r l =
        (World.mk (w.trace ++ [Event.downloadFileCall r l, Event.clientOpen r true,
            Event.osCreate l true, Event.writeTo r l false, Event.localFileClose l,
            Event.srcFileClose r])
            (fun p => if p = l then some content else w.localFS p),
          some ("failed to download file: " ++ err))) ∨
    (∃ content, downloadFile env w r l =
        (World.mk (w.trace ++ [Event.downloadFileCall r l, Event.clientOpen r true,
            Event.osCreate l true, Event.writeTo r l true, Event.localFileClose l,
            Event.srcFileClose r])
            (fun p => if p = l then some content else w.localFS p),
          none)) := by
  cases h1 : env.clientOpen (w.emit (Event.downloadFileCall r l)) r with
  | error err =>
    left
    exact ⟨err, by rw [downloadFile_open_error env w r l err h1]; simp [World.emit]⟩
  | ok bytes =>
    right
    cases h2 : env.osCreate ((w.emit (Event.downloadFileCall r l)).emit (Event.clientOpen r true)) l with
    | some err =>
      left
      exact ⟨err, by rw [downloadFile_create_error env w r l err bytes h1 h2]; simp [World.emit]⟩
    | none =>
      right
      cases h3 : env.writeTo ((((w.emit (Event.downloadFileCall r l)).emit
          (Event.clientOpen r true)).emit (Event.osCreate l true)).write l []) r l bytes with
      | some ne =>
        left
        refine ⟨ne.2, bytes.take ne.1, ?_⟩
        rw [downloadFile_copy_error env w r l ne.2 bytes ne.1 h1 h2 h3]
        simp only [World.emit, World.write, List.append_assoc, List.singleton_append, Prod.mk.injEq,
          World.mk.injEq, true_and, and_true]
        refine ⟨by simp, ?_⟩
        funext p
        by_cases hp : p = l <;> simp [hp]
      | none =>
        right
        refine ⟨bytes, ?_⟩
        rw [downloadFile_success env w r l bytes h1 h2 h3]
        simp only [World.emit, World.write, List.append_assoc, List.singleton_append, Prod.mk.injEq,
          World.mk.injEq, true_and, and_true]
        refine ⟨by simp, ?_⟩
        funext p
        by_cases hp : p = l <;> simp [hp]

theorem attempts_downloadFile (env : Env) (w : World) (r l : String) :
    attempts (downloadFile env w r l).1.trace = attempts w.trace ++ [(r, l)] := by
  rcases downloadFile_cases env w r l with ⟨e, h⟩ | ⟨e, h⟩ | ⟨e, c, h⟩ | ⟨c, h⟩ <;>
    simp [h, attempts_append, attempts]

theorem attempts_mainLoop (env : Env) (config : Config) (files : List FileInfo) (w : World) :
    attempts (mainLoop env config files w).trace
      = attempts w.trace ++ (regularFiles files).map (pathsOf config) := by
  induction files generalizing w with
  | nil => simp [mainLoop, regularFiles]
  | cons f rest ih =>
    simp only [mainLoop]
    split
    · rename_i hf
      split <;>
        simp [ih, attempts_append, attempts_downloadFile, attempts, hf, regularFiles, pathsOf]
    · rename_i hf
      simp [ih, hf, regularFiles]

theorem loopResults_paths (env : Env) (config : Config) (files : List FileInfo) (w : World) :
    (loopResults env config files w).map (fun x => (x.1, x.2.1))
      = (regularFiles files).map (pathsOf config) := by
  induction files generalizing w with
  | nil => simp [loopResults, regularFiles]
  | cons f rest ih =>
    simp only [loopResults]
    split
    · rename_i hf
      split <;> simp [ih, hf, regularFiles, pathsOf]
    · rename_i hf
      simp [ih, hf, regularFiles]

theorem loopResults_length (env : Env) (config : Config) (files : List FileInfo) (w : World) :
    (loopResults env config files w).length = (regularFiles files).length := by
  have h := congrArg List.length (loopResults_paths env config files w)
  simpa using h

theorem observed_downloadFile (env : Env) (w : World) (r l : String) :
    observed (downloadFile env w r l).1.trace
      = observed w.trace ++ [Event.downloadFileCall r l] := by
  rcases downloadFile_cases env w r l with ⟨e, h⟩ | ⟨e, h⟩ | ⟨e, c, h⟩ | ⟨c, h⟩ <;>
    simp [h, observed_append, observed]

theorem observed_mainLoop (env : Env) (config : Config) (files : List FileInfo) (w : World) :
    observed (mainLoop env config files w).trace
      = observed w.trace ++ (loopResults env config files w).flatMap observedOf := by
  induction files generalizing w with
  | nil => simp [mainLoop, loopResults]
  | cons f rest ih =>
    simp only [mainLoop, loopResults]
    split
    · split
      · rename_i err he
        simp [he, ih, observed_append, observed_downloadFile, observed, observedOf]
      · rename_i he
        simp [he, ih, observed_append, observed_downloadFile, observed, observedOf]
    · simp [ih]

theorem logLines_downloadFile (env : Env) (w : World) (r l : String) :
    logLines (downloadFile env w r l).1.trace = logLines w.trace := by
  rcases downloadFile_cases env w r l with ⟨e, h⟩ | ⟨e, h⟩ | ⟨e, c, h⟩ | ⟨c, h⟩ <;>
    simp [h, logLines_append, logLines]

theorem logLines_mainLoop (env : Env) (config : Config) (files : List FileInfo) (w : World) :
    logLines (mainLoop env config files w).trace
      = logLines w.trace ++
        (loopResults env config files w).filterMap (fun x => x.2.2.map (failedLine x.1)) := by
  induction files generalizing w with
  | nil => simp [mainLoop, loopResults]
  | cons f rest ih =>
    simp only [mainLoop, loopResults]
    split
    · split
      · rename_i err he
        simp [he, ih, logLines_append, logLines_downloadFile, logLines]
      · rename_i he
        simp [he, ih, logLines_append, logLines_downloadFile, logLines]
    · simp [ih]

theorem stdoutLines_downloadFile (env : Env) (w : World) (r l : String) :
    stdoutLines (downloadFile env w r l).1.trace = stdoutLines w.trace := by
  rcases downloadFile_cases env w r l with ⟨e, h⟩ | ⟨e, h⟩ | ⟨e, c, h⟩ | ⟨c, h⟩ <;>
    simp [h, stdoutLines_append, stdoutLines]

theorem stdoutLines_mainLoop (env : Env) (config : Config) (files : List FileInfo) (w : World) :
    stdoutLines (mainLoop env config files w).trace
      = stdoutLines w.trace ++
        (regularFiles files).map (fun f => downloadingLine (pathsOf config f).1 (pathsOf config f).2) := by
  induction files generalizing w with
  | nil => simp [mainLoop, regularFiles]
  | cons f rest ih =>
    simp only [mainLoop]
    split
    · rename_i hf
      split <;>
        simp [ih, stdoutLines_append, stdoutLines_downloadFile, stdoutLines, hf, regularFiles,
          pathsOf]
    · rename_i hf
      simp [ih, hf, regularFiles]

/-- A call of `downloadFile` returns no error exactly when the copy went through. -/
theorem copied_downloadFile (env : Env) (w : World) (r l : String) :
    copied (downloadFile env w r l).1.trace
      = copied w.trace ++ (if (downloadFile env w r l).2 = none then [(r, l)] else []) := by
  rcases downloadFile_cases env w r l with ⟨e, h⟩ | ⟨e, h⟩ | ⟨e, c, h⟩ | ⟨c, h⟩ <;>
    simp [h, copied_append, copied]

theorem copied_mainLoop (env : Env) (config : Config) (files : List FileInfo) (w : World) :
    copied (mainLoop env config files w).trace
      = copied w.trace ++
        (loopResults env config files w).filterMap
          (fun x => if x.2.2 = none then some (x.1, x.2.1) else none) := by
  induction files generalizing w with
  | nil => simp [mainLoop, loopResults]
  | cons f rest ih =>
    simp only [mainLoop, loopResults]
    split
    · split
      · rename_i err he
        simp [he, ih, copied_append, copied_downloadFile, copied]
      · rename_i he
        simp [he, ih, copied_append, copied_downloadFile, copied]
    · simp [ih]

theorem exampleEnv_listed : Listed exampleEnv emptyFS exampleConfig exampleListing :=
  ⟨rfl, rfl, rfl⟩

theorem filter_isDir_length (files : List FileInfo) :
    (files.filter (fun f => !f.IsDir)).length + (files.filter (fun f => f.IsDir)).length
      = files.length := by
  induction files with
  | nil => rfl
  | cons f rest ih => cases hf : f.IsDir <;> simp [hf] <;> omega

/-- C1: when the first three stages and the creation of the local directory succeed, the
transfer attempts of the run are exactly the non-directory entries of the listing, in
listing order, each once, with remote path `path.Join(SFTPDirectory, name)` and local path
`filepath.Join(LocalDirectory, name)`; so F files give F attempts (F + D = N), and the
directory entries add nothing to the run: the loop over the listing ends in the same
world as the loop over the listing without its directories. -/
theorem transfer_attempts_are_the_regular_files (env : Env) (fs : String → Option Bytes)
    (config : Config) (files : List FileInfo) (h : Listed env fs config files)
    (hm : env.mkdirAll (listedWorld env fs config) config.LocalDirectory = none) :
    attempts (run env fs).trace
        = (files.filter (fun f => f.IsDir = false)).map
            (fun f => (pathJoin config.SFTPDirectory f.Name,
              filepathJoin config.LocalDirectory f.Name)) ∧
      (attempts (run env fs).trace).length = (files.filter (fun f => f.IsDir = false)).length ∧
      (files.filter (fun f => f.IsDir = false)).length
        + (files.filter (fun f => f.IsDir = true)).length = files.length ∧
      mainLoop env config files (loopStart env fs config)
        = mainLoop env config (files.filter (fun f => f.IsDir = false)) (loopStart env fs config) := by
  have key : attempts (run env fs).trace = (regularFiles files).map (pathsOf config) := by
    rw [run_of_mkdir_ok env fs config files h hm]
    simp [attempts_append, attempts_mainLoop, loopStart, (listedWorld_trace env fs config files h).1,
      attempts]
  refine ⟨key, ?_, ?_, mainLoop_regularFiles env config files _⟩
  · rw [key]; simp [regularFiles]
  · simpa using filter_isDir_length files

theorem transfer_attempts_are_the_regular_files_witness :
    attempts (run exampleEnv emptyFS).trace
      = [("/backups/a.txt", "out/a.txt"), ("/backups/b.txt", "out/b.txt")] :=
  (transfer_attempts_are_the_regular_files exampleEnv emptyFS exampleConfig exampleListing
    exampleEnv_listed rfl).1.trans (by decide)

theorem noMkdirEnv_listed : Listed noMkdirEnv emptyFS exampleConfig exampleListing :=
  ⟨rfl, rfl, rfl⟩

/-- C3: when the first three stages succeed and `os.MkdirAll` fails, the run ends in
`log.Fatalf` right after that call: its history is the history up to the listing, the
failed `os.MkdirAll`, the fatal message and the exit with status 1.  There is no
transfer attempt, no operation of the transfer stage (no remote file opened, no local
file created), nothing on standard output (neither a "Downloading" line nor
"Download completed"), and the local files are untouched. -/
theorem mkdirAll_failure_aborts_before_any_transfer (env : Env) (fs : String → Option Bytes)
    (config : Config) (files : List FileInfo) (err : String) (h : Listed env fs config files)
    (hm : env.mkdirAll (listedWorld env fs config) config.LocalDirectory = some err) :
    (run env fs).trace
        = (listedWorld env fs config).trace ++
          [Event.mkdirAll config.LocalDirectory false,
            Event.logPrint ("Failed to create local directory: " ++ err), Event.osExit 1] ∧
      attempts (run env fs).trace = [] ∧
      (∀ e ∈ (run env fs).trace, e.stage? ≠ some 5) ∧
      (∀ e ∈ (run env fs).trace, ∀ p ok, e ≠ Event.clientOpen p ok ∧ e ≠ Event.osCreate p ok) ∧
      stdoutLines (run env fs).trace = [] ∧
      (run env fs).localFS = fs := by
  have ht := (listedWorld_trace env fs config files h).1
  have hfs := (listedWorld_trace env fs config files h).2
  rw [run_of_mkdir_error env fs config files err h hm]
  refine ⟨by simp [fatalf], ?_, ?_, ?_, ?_, ?_⟩
  · simp [fatalf, ht, attempts]
  · intro e he
    simp [fatalf, ht] at he
    rcases he with he | he | he | he | he | he | he | he | he <;> simp [he, Event.stage?]
  · intro e he p ok
    simp [fatalf, ht] at he
    rcases he with he | he | he | he | he | he | he | he | he <;> simp [he]
  · simp [fatalf, ht, stdoutLines]
  · simp [fatalf, hfs]

theorem mkdirAll_failure_aborts_before_any_transfer_witness :
    (run noMkdirEnv emptyFS).trace
      = [Event.osOpen "config.json" true, Event.jsonDecode true, Event.fileClose "config.json",
          Event.sshDial "host:22" "user" true, Event.sftpNewClient true,
          Event.readDir "/backups" true, Event.mkdirAll "./out" false,
          Event.logPrint "Failed to create local directory: permission denied", Event.osExit 1] :=
  (mkdirAll_failure_aborts_before_any_transfer noMkdirEnv emptyFS exampleConfig exampleListing
    "permission denied" noMkdirEnv_listed rfl).1.trans (by decide)

/-- C9: whatever the outcome of `downloadFile`, the handles it opened are closed, each
once, before it returns, and nothing else is closed: no handle is touched when
`client.Open` fails; the remote handle alone is opened and closed when `os.Create`
fails; when the copy fails and when it succeeds both handles are opened and closed, the
local one first. -/
theorem downloadFile_closes_exactly_what_it_opened (env : Env) (w : World) (r l : String) :
    ∃ new : List Event, (downloadFile env w r l).1.trace = w.trace ++ new ∧
      ((∃ err, env.clientOpen (w.emit (Event.downloadFileCall r l)) r = Except.error err ∧
          handleOps new = []) ∨
        (∃ bytes err, env.clientOpen (w.emit (Event.downloadFileCall r l)) r = Except.ok bytes ∧
          env.osCreate ((w.emit (Event.downloadFileCall r l)).emit (Event.clientOpen r true)) l
            = some err ∧
          handleOps new
            = [HandleOp.opened (Handle.remote r), HandleOp.closed (Handle.remote r)]) ∨
        (∃ bytes n err, env.clientOpen (w.emit (Event.downloadFileCall r l)) r = Except.ok bytes ∧
          env.osCreate ((w.emit (Event.downloadFileCall r l)).emit (Event.clientOpen r true)) l
            = none ∧
          env.writeTo ((((w.emit (Event.downloadFileCall r l)).emit (Event.clientOpen r true)).emit
            (Event.osCreate l true)).write l []) r l bytes = some (n, err) ∧
          (downloadFile env w r l).2 = some ("failed to download file: " ++ err) ∧
          handleOps new
            = [HandleOp.opened (Handle.remote r), HandleOp.opened (Handle.localFile l),
                HandleOp.closed (Handle.localFile l), HandleOp.closed (Handle.remote r)]) ∨
        (∃ bytes, env.clientOpen (w.emit (Event.downloadFileCall r l)) r = Except.ok bytes ∧
          env.osCreate ((w.emit (Event.downloadFileCall r l)).emit (Event.clientOpen r true)) l
            = none ∧
          env.writeTo ((((w.emit (Event.downloadFileCall r l)).emit (Event.clientOpen r true)).emit
            (Event.osCreate l true)).write l []) r l bytes = none ∧
          (downloadFile env w r l).2 = none ∧
          handleOps new
            = [HandleOp.opened (Handle.remote r), HandleOp.opened (Handle.localFile l),
                HandleOp.closed (Handle.localFile l), HandleOp.closed (Handle.remote r)])) := by
  cases h1 : env.clientOpen (w.emit (Event.downloadFileCall r l)) r with
  | error err =>
    refine ⟨[Event.downloadFileCall r l, Event.clientOpen r false], ?_, Or.inl ⟨err, rfl, rfl⟩⟩
    rw [downloadFile_open_error env w r l err h1]; simp
  | ok bytes =>
    cases h2 : env.osCreate ((w.emit (Event.downloadFileCall r l)).emit (Event.clientOpen r true)) l with
    | some err =>
      refine ⟨[Event.downloadFileCall r l, Event.clientOpen r true, Event.osCreate l false,
        Event.srcFileClose r], ?_, Or.inr (Or.inl ⟨bytes, err, rfl, rfl, rfl⟩)⟩
      rw [downloadFile_create_error env w r l err bytes h1 h2]; simp
    | none =>
      cases h3 : env.writeTo ((((w.emit (Event.downloadFileCall r l)).emit
          (Event.clientOpen r true)).emit (Event.osCreate l true)).write l []) r l bytes with
      | some ne =>
        have hd := downloadFile_copy_error env w r l ne.2 bytes ne.1 h1 h2 h3
        refine ⟨[Event.downloadFileCall r l, Event.clientOpen r true, Event.osCreate l true,
          Event.writeTo r l false, Event.localFileClose l, Event.srcFileClose r], ?_,
          Or.inr (Or.inr (Or.inl ⟨bytes, ne.1, ne.2, rfl, rfl, h3, ?_, rfl⟩))⟩
        · rw [hd]; simp
        · rw [hd]
      | none =>
        have hd := downloadFile_success env w r l bytes h1 h2 h3
        refine ⟨[Event.downloadFileCall r l, Event.clientOpen r true, Event.osCreate l true,
          Event.writeTo r l true, Event.localFileClose l, Event.srcFileClose r], ?_,
          Or.inr (Or.inr (Or.inr ⟨bytes, rfl, rfl, h3, ?_, rfl⟩))⟩
        · rw [hd]; simp
        · rw [hd]

theorem deniedEnv_listed : Listed deniedEnv emptyFS exampleConfig exampleListing :=
  ⟨rfl, rfl, rfl⟩

/-- C5: let the loop reach a non-directory entry `file` (after the entries `pre`, before
the entries `post`) and let `client.Open` fail on its remote path.  Then `downloadFile`
returns the wrapped error having only recorded the failed open: the local files are
exactly as before the call (nothing created, truncated or written).  `main` logs one
message, which names the remote path, and goes on with the remaining entries from a
world that differs by these four events only; the run ends with "Download completed",
the closing of the client and a normal exit. -/
theorem remote_open_failure_is_logged_and_skipped (env : Env) (fs : String → Option Bytes)
    (config : Config) (pre : List FileInfo) (file : FileInfo) (post : List FileInfo)
    (err : String) (h : Listed env fs config (pre ++ file :: post))
    (hm : env.mkdirAll (listedWorld env fs config) config.LocalDirectory = none)
    (hf : file.IsDir = false)
    (ho : env.clientOpen
        (((mainLoop env config pre (loopStart env fs config)).emit
          (Event.stdout (downloadingLine (pathJoin config.SFTPDirectory file.Name)
            (filepathJoin config.LocalDirectory file.Name)))).emit
          (Event.downloadFileCall (pathJoin config.SFTPDirectory file.Name)
            (filepathJoin config.LocalDirectory file.Name)))
        (pathJoin config.SFTPDirectory file.Name) = Except.error err) :
    let remotePath := pathJoin config.SFTPDirectory file.Name
    let localPath := filepathJoin config.LocalDirectory file.Name
    let w := mainLoop env config pre (loopStart env fs config)
    let d := downloadFile env (w.emit (Event.stdout (downloadingLine remotePath localPath)))
      remotePath localPath
    d.2 = some ("failed to open remote file: " ++ err) ∧
      d.1.localFS = w.localFS ∧
      d.1.trace = w.trace ++ [Event.stdout (downloadingLine remotePath localPath),
        Event.downloadFileCall remotePath localPath, Event.clientOpen remotePath false] ∧
      ∃ next : World,
        next.localFS = w.localFS ∧
        next.trace = w.trace ++ [Event.stdout (downloadingLine remotePath localPath),
          Event.downloadFileCall remotePath localPath, Event.clientOpen remotePath false,
          Event.logPrint (failedLine remotePath ("failed to open remote file: " ++ err))] ∧
        logLines next.trace
          = logLines w.trace ++ [failedLine remotePath ("failed to open remote file: " ++ err)] ∧
        run env fs
          = (((mainLoop env config post next).emit (Event.stdout completedLine)).emit
              Event.clientClose).emit (Event.osExit 0) := by
  intro remotePath localPath w d
  have hd : d = ((((w.emit (Event.stdout (downloadingLine remotePath localPath))).emit
      (Event.downloadFileCall remotePath localPath)).emit (Event.clientOpen remotePath false)),
      some ("failed to open remote file: " ++ err)) :=
    downloadFile_open_error env _ remotePath localPath err ho
  refine ⟨by rw [hd], by rw [hd]; rfl, by rw [hd]; simp, d.1.emit
    (Event.logPrint (failedLine remotePath ("failed to open remote file: " ++ err))), ?_, ?_, ?_, ?_⟩
  · rw [hd]; rfl
  · rw [hd]; simp
  · rw [hd]; simp [logLines_append, logLines]
  · rw [run_of_mkdir_ok env fs config (pre ++ file :: post) h hm, mainLoop_append]
    have step : mainLoop env config (file :: post) w
        = mainLoop env config post (d.1.emit
            (Event.logPrint (failedLine remotePath ("failed to open remote file: " ++ err)))) := by
      have hd2 : d.2 = some ("failed to open remote file: " ++ err) := by rw [hd]
      simp only [mainLoop, hf, if_true]
      show (match d.2 with
        | some e => mainLoop env config post (d.1.emit (Event.logPrint (failedLine remotePath e)))
        | none => mainLoop env config post d.1) = _
      rw [hd2]
    rw [step]

theorem remote_open_failure_is_logged_and_skipped_witness :
    Listed deniedEnv emptyFS exampleConfig
        ([] ++ FileInfo.mk "a.txt" false :: [FileInfo.mk "logs" true, FileInfo.mk "b.txt" false]) ∧
      (downloadFile deniedEnv
          ((loopStart deniedEnv emptyFS exampleConfig).emit
            (Event.stdout "Downloading /backups/a.txt -> out/a.txt\n"))
          "/backups/a.txt" "out/a.txt").2
        = some "failed to open remote file: permission denied" ∧
      (run deniedEnv emptyFS).trace
        = [Event.osOpen "config.json" true, Event.jsonDecode true, Event.fileClose "config.json",
          Event.sshDial "host:22" "user" true, Event.sftpNewClient true,
          Event.readDir "/backups" true, Event.mkdirAll "./out" true,
          Event.stdout "Downloading /backups/a.txt -> out/a.txt\n",
          Event.downloadFileCall "/backups/a.txt" "out/a.txt",
          Event.clientOpen "/backups/a.txt" false,
          Event.logPrint "Failed to download /backups/a.txt: failed to open remote file: permission denied",
          Event.stdout "Downloading /backups/b.txt -> out/b.txt\n",
          Event.downloadFileCall "/backups/b.txt" "out/b.txt",
          Event.clientOpen "/backups/b.txt" true, Event.osCreate "out/b.txt" true,
          Event.writeTo "/backups/b.txt" "out/b.txt" true, Event.localFileClose "out/b.txt",
          Event.srcFileClose "/backups/b.txt", Event.stdout "Download completed\n",
          Event.clientClose, Event.osExit 0] ∧
      (run deniedEnv emptyFS).localFS "out/a.txt" = none := by
  have t := remote_open_failure_is_logged_and_skipped deniedEnv emptyFS exampleConfig []
    (FileInfo.mk "a.txt" false) [FileInfo.mk "logs" true, FileInfo.mk "b.txt" false]
    "permission denied" deniedEnv_listed rfl rfl rfl
  obtain ⟨t1, _, _, next, hfs, htr, _, hrun⟩ := t
  refine ⟨deniedEnv_listed, t1, ?_, ?_⟩
  · have e : next = World.mk next.trace next.localFS := rfl
    rw [hrun, e, htr, hfs]
    decide
  · have e : next = World.mk next.trace next.localFS := rfl
    rw [hrun, e, htr, hfs]
    decide

theorem filterMap_some_none_length {α β : Type} (xs : List (α × β × Option String))
    (f : α × β × Option String → String → String) (g : α × β × Option String → α × β) :
    (xs.filterMap (fun x => x.2.2.map (f x))).length
        = (xs.filter (fun x => x.2.2.isSome)).length ∧
      (xs.filterMap (fun x => if x.2.2 = none then some (g x) else none)).length
        = xs.length - (xs.filter (fun x => x.2.2.isSome)).length ∧
      (xs.filter (fun x => x.2.2.isSome)).length ≤ xs.length := by
  induction xs with
  | nil => simp
  | cons x xs ih =>
    obtain ⟨a, b, c⟩ := ih
    cases hx : x.2.2 with
    | none =>
      simp only [List.filterMap_cons, List.filter_cons, hx, Option.map_none', Option.isSome_none,
        if_true, List.length_cons, Bool.false_eq_true, if_false]
      omega
    | some v =>
      simp only [List.filterMap_cons, List.filter_cons, hx, Option.map_some', Option.isSome_some,
        if_true, List.length_cons, reduceCtorEq, if_false]
      omega

/-- C2: let the run reach its loop on a listing with F non-directory entries, and let K
be the number of calls of `downloadFile` that return an error, whatever the environment
makes of each call.  Then K ≤ F, all F entries are attempted, the history of the run
ends with "Download completed", the closing of the client and the exit with status 0,
the log holds exactly the K "Failed to download" messages of the failed calls, and
exactly F - K copies go through. -/
theorem run_completes_whatever_fails (env : Env) (fs : String → Option Bytes)
    (config : Config) (files : List FileInfo) (K : Nat) (h : Listed env fs config files)
    (hm : env.mkdirAll (listedWorld env fs config) config.LocalDirectory = none)
    (hK : ((loopResults env config files (loopStart env fs config)).filter
      (fun x => x.2.2.isSome)).length = K) :
    K ≤ (files.filter (fun f => f.IsDir = false)).length ∧
      (attempts (run env fs).trace).length = (files.filter (fun f => f.IsDir = false)).length ∧
      (∃ before, (run env fs).trace
        = before ++ [Event.stdout "Download completed\n", Event.clientClose, Event.osExit 0]) ∧
      logLines (run env fs).trace
        = (loopResults env config files (loopStart env fs config)).filterMap
            (fun x => x.2.2.map (fun err => "Failed to download " ++ x.1 ++ ": " ++ err)) ∧
      (logLines (run env fs).trace).length = K ∧
      (copied (run env fs).trace).length = (files.filter (fun f => f.IsDir = false)).length - K := by
  have ht := (listedWorld_trace env fs config files h).1
  have hlen := loopResults_length env config files (loopStart env fs config)
  have hcount := filterMap_some_none_length (loopResults env config files (loopStart env fs config))
    (fun x => failedLine x.1) (fun x => (x.1, x.2.1))
  have hlog : logLines (run env fs).trace
      = (loopResults env config files (loopStart env fs config)).filterMap
          (fun x => x.2.2.map (failedLine x.1)) := by
    rw [run_of_mkdir_ok env fs config files h hm]
    simp [logLines_append, logLines_mainLoop, loopStart, ht, logLines]
  have hcop : copied (run env fs).trace
      = (loopResults env config files (loopStart env fs config)).filterMap
          (fun x => if x.2.2 = none then some (x.1, x.2.1) else none) := by
    rw [run_of_mkdir_ok env fs config files h hm]
    simp [copied_append, copied_mainLoop, loopStart, ht, copied]
  have hatt : attempts (run env fs).trace = (regularFiles files).map (pathsOf config) := by
    rw [run_of_mkdir_ok env fs config files h hm]
    simp [attempts_append, attempts_mainLoop, loopStart, ht, attempts]
  have hF : (files.filter (fun f => f.IsDir = false)).length = (regularFiles files).length := rfl
  refine ⟨?_, ?_, ?_, hlog, ?_, ?_⟩
  · rw [hF, ← hlen, ← hK]; exact hcount.2.2
  · rw [hatt, hF]; simp
  · refine ⟨(mainLoop env config files (loopStart env fs config)).trace, ?_⟩
    rw [run_of_mkdir_ok env fs config files h hm]
    simp [completedLine]
  · rw [hlog, hcount.1, hK]
  · rw [hcop, hcount.2.1, hK, hF, hlen]

theorem run_completes_whatever_fails_witness :
    Listed deniedEnv emptyFS exampleConfig exampleListing ∧
      ((loopResults deniedEnv exampleConfig exampleListing
        (loopStart deniedEnv emptyFS exampleConfig)).filter (fun x => x.2.2.isSome)).length = 1 ∧
      (attempts (run deniedEnv emptyFS).trace).length = 2 ∧
      (logLines (run deniedEnv emptyFS).trace).length = 1 ∧
      (copied (run deniedEnv emptyFS).trace).length = 2 - 1 :=
  have t := run_completes_whatever_fails deniedEnv emptyFS exampleConfig exampleListing 1
    deniedEnv_listed rfl (by decide)
  ⟨deniedEnv_listed, by decide, t.2.1, t.2.2.2.2.1, t.2.2.2.2.2⟩

theorem downloadingLine_ne_completedLine (r l : String) : downloadingLine r l ≠ completedLine := by
  intro h
  have h2 := congrArg String.data h
  simp only [downloadingLine, completedLine, String.data_append] at h2
  have h3 := congrArg (fun cs => cs.get? 8) h2
  simp at h3

/-- C10: when the run reaches its loop, what it writes and attempts is, in this order: for
each call of `downloadFile` (one per non-directory entry, in listing order) the line
"Downloading remote -> local", then the call, then the "Failed to download" message if
the call returned an error; and last of all the line "Download completed".  Standard
output therefore holds exactly one "Downloading" line per non-directory entry followed
by a single "Download completed", which is no "Downloading" line. -/
theorem output_is_one_line_per_file_then_completed (env : Env) (fs : String → Option Bytes)
    (config : Config) (files : List FileInfo) (h : Listed env fs config files)
    (hm : env.mkdirAll (listedWorld env fs config) config.LocalDirectory = none) :
    observed (run env fs).trace
        = (loopResults env config files (loopStart env fs config)).flatMap observedOf
          ++ [Event.stdout "Download completed\n"] ∧
      (loopResults env config files (loopStart env fs config)).map (fun x => (x.1, x.2.1))
        = (files.filter (fun f => f.IsDir = false)).map
            (fun f => (pathJoin config.SFTPDirectory f.Name,
              filepathJoin config.LocalDirectory f.Name)) ∧
      stdoutLines (run env fs).trace
        = (files.filter (fun f => f.IsDir = false)).map
            (fun f => "Downloading " ++ pathJoin config.SFTPDirectory f.Name ++ " -> "
              ++ filepathJoin config.LocalDirectory f.Name ++ "\n")
          ++ ["Download completed\n"] ∧
      (stdoutLines (run env fs).trace).length
        = (files.filter (fun f => f.IsDir = false)).length + 1 ∧
      ∀ r l : String, "Downloading " ++ r ++ " -> " ++ l ++ "\n" ≠ "Download completed\n" := by
  have ht := (listedWorld_trace env fs config files h).1
  have hout : stdoutLines (run env fs).trace
      = (regularFiles files).map
          (fun f => downloadingLine (pathsOf config f).1 (pathsOf config f).2)
        ++ [completedLine] := by
    rw [run_of_mkdir_ok env fs config files h hm]
    simp [stdoutLines_append, stdoutLines_mainLoop, loopStart, ht, stdoutLines]
  refine ⟨?_, loopResults_paths env config files _, hout, ?_, downloadingLine_ne_completedLine⟩
  · rw [run_of_mkdir_ok env fs config files h hm]
    simp [observed_append, observed_mainLoop, loopStart, ht, observed, completedLine]
  · rw [hout]; simp [regularFiles]

theorem output_is_one_line_per_file_then_completed_witness :
    Listed exampleEnv emptyFS exampleConfig exampleListing ∧
      stdoutLines (run exampleEnv emptyFS).trace
        = ["Downloading /backups/a.txt -> out/a.txt\n", "Downloading /backups/b.txt -> out/b.txt\n",
            "Download completed\n"] :=
  ⟨exampleEnv_listed,
    (output_is_one_line_per_file_then_completed exampleEnv emptyFS exampleConfig exampleListing
      exampleEnv_listed rfl).2.2.1.trans (by decide)⟩

/-! ## Stages -/

theorem stages_loadConfig (env : Env) (w : World) (f : String) :
    ∃ k, stages (loadConfig env w f).1.trace = stages w.trace ++ List.replicate k 1 := by
  unfold loadConfig
  cases env.osOpen w f with
  | some err => exact ⟨1, by simp [stages, Event.stage?]⟩
  | none => exact ⟨3, by simp [stages, Event.stage?, List.replicate]⟩

theorem stages_connectSFTP (env : Env) (w : World) (config : Config) :
    ∃ k, stages (connectSFTP env w config).1.trace = stages w.trace ++ List.replicate k 2 := by
  unfold connectSFTP
  cases env.sshDial w config.SFTPHost config.SFTPUser config.SFTPPassword with
  | some err => exact ⟨1, by simp [stages, Event.stage?]⟩
  | none =>
    simp only []
    cases env.sftpNewClient (w.emit (Event.sshDial config.SFTPHost config.SFTPUser true)) with
    | some err => exact ⟨2, by simp [stages, Event.stage?, List.replicate]⟩
    | none => exact ⟨2, by simp [stages, Event.stage?, List.replicate]⟩

theorem stages_downloadFile (env : Env) (w : World) (r l : String) :
    ∃ k, stages (downloadFile env w r l).1.trace = stages w.trace ++ List.replicate k 5 := by
  rcases downloadFile_cases env w r l with ⟨e, h⟩ | ⟨e, h⟩ | ⟨e, c, h⟩ | ⟨c, h⟩
  · exact ⟨2, by simp [h, stages, Event.stage?, List.replicate]⟩
  · exact ⟨4, by simp [h, stages, Event.stage?, List.replicate]⟩
  · exact ⟨6, by simp [h, stages, Event.stage?, List.replicate]⟩
  · exact ⟨6, by simp [h, stages, Event.stage?, List.replicate]⟩

theorem stages_mainLoop (env : Env) (config : Config) (files : List FileInfo) (w : World) :
    ∃ k, stages (mainLoop env config files w).trace = stages w.trace ++ List.replicate k 5 := by
  induction files generalizing w with
  | nil => exact ⟨0, by simp [mainLoop]⟩
  | cons f rest ih =>
    simp only [mainLoop]
    split
    · obtain ⟨k, hk⟩ := stages_downloadFile env
        (w.emit (Event.stdout (downloadingLine (pathJoin config.SFTPDirectory f.Name)
          (filepathJoin config.LocalDirectory f.Name))))
        (pathJoin config.SFTPDirectory f.Name) (filepathJoin config.LocalDirectory f.Name)
      have hk2 : stages (downloadFile env
          (w.emit (Event.stdout (downloadingLine (pathJoin config.SFTPDirectory f.Name)
            (filepathJoin config.LocalDirectory f.Name))))
          (pathJoin config.SFTPDirectory f.Name) (filepathJoin config.LocalDirectory f.Name)).1.trace
          = stages w.trace ++ List.replicate k 5 := by
        rw [hk]; simp [stages, Event.stage?]
      split
      · obtain ⟨j, hj⟩ := ih ((downloadFile env
          (w.emit (Event.stdout (downloadingLine (pathJoin config.SFTPDirectory f.Name)
            (filepathJoin config.LocalDirectory f.Name))))
          (pathJoin config.SFTPDirectory f.Name) (filepathJoin config.LocalDirectory f.Name)).1.emit
            (Event.logPrint (failedLine (pathJoin config.SFTPDirectory f.Name) ‹String›)))
        refine ⟨k + j, ?_⟩
        rw [hj]
        have : stages ((downloadFile env
          (w.emit (Event.stdout (downloadingLine (pathJoin config.SFTPDirectory f.Name)
            (filepathJoin config.LocalDirectory f.Name))))
          (pathJoin config.SFTPDirectory f.Name) (filepathJoin config.LocalDirectory f.Name)).1.emit
            (Event.logPrint (failedLine (pathJoin config.SFTPDirectory f.Name) ‹String›))).trace
            = stages w.trace ++ List.replicate k 5 := by
          rw [emit_trace, stages_append, hk2]; simp [stages, Event.stage?]
        rw [this, List.append_assoc, ← List.replicate_add]
      · obtain ⟨j, hj⟩ := ih (downloadFile env
          (w.emit (Event.stdout (downloadingLine (pathJoin config.SFTPDirectory f.Name)
            (filepathJoin config.LocalDirectory f.Name))))
          (pathJoin config.SFTPDirectory f.Name) (filepathJoin config.LocalDirectory f.Name)).1
        refine ⟨k + j, ?_⟩
        rw [hj, hk2, List.append_assoc, ← List.replicate_add]
    · exact ih w

/-- The stages of a history that ends in `log.Fatalf` are those of the history before. -/
theorem stages_fatalf (w : World) (msg : String) : stages (fatalf w msg).trace = stages w.trace := by
  simp [fatalf, stages, Event.stage?]

theorem run_of_config_error (env : Env) (fs : String → Option Bytes) (err : String)
    (hc : (loadConfig env (World.start fs) "config.json").2.2 = some err) :
    run env fs = fatalf (loadConfig env (World.start fs) "config.json").1
      ("Failed config loading: " ++ err) := by
  simp only [run, main, hc]

theorem run_of_connect_error (env : Env) (fs : String → Option Bytes) (config : Config)
    (err : String) (hc : (loadConfig env (World.start fs) "config.json").2 = (config, none))
    (hs : (connectSFTP env (loadConfig env (World.start fs) "config.json").1 config).2 = some err) :
    run env fs = fatalf (connectSFTP env (loadConfig env (World.start fs) "config.json").1 config).1
      ("SFTP connection failure: " ++ err) := by
  have c1 : (loadConfig env (World.start fs) "config.json").2.1 = config := by rw [hc]
  have c2 : (loadConfig env (World.start fs) "config.json").2.2 = none := by rw [hc]
  simp only [run, main, c1, c2, hs]

theorem run_of_readDir_error (env : Env) (fs : String → Option Bytes) (config : Config)
    (err : String) (hc : (loadConfig env (World.start fs) "config.json").2 = (config, none))
    (hs : (connectSFTP env (loadConfig env (World.start fs) "config.json").1 config).2 = none)
    (hr : env.readDir (connectSFTP env (loadConfig env (World.start fs) "config.json").1 config).1
      config.SFTPDirectory = Except.error err) :
    run env fs
      = fatalf ((connectSFTP env (loadConfig env (World.start fs) "config.json").1 config).1.emit
          (Event.readDir config.SFTPDirectory false))
        ("Read directory " ++ config.SFTPDirectory ++ " failed: " ++ err) := by
  have c1 : (loadConfig env (World.start fs) "config.json").2.1 = config := by rw [hc]
  have c2 : (loadConfig env (World.start fs) "config.json").2.2 = none := by rw [hc]
  simp only [run, main, c1, c2, hs, hr]

/-- The shape of the stages of any run: operations of stage 1, then of stage 2, then 3,
then 4, then 5. -/
theorem stages_run (env : Env) (fs : String → Option Bytes) :
    ∃ a b c d e, stages (run env fs).trace
      = List.replicate a 1 ++ (List.replicate b 2 ++ (List.replicate c 3 ++
          (List.replicate d 4 ++ List.replicate e 5))) := by
  obtain ⟨a, ha⟩ := stages_loadConfig env (World.start fs) "config.json"
  simp only [start_trace, stages, List.filterMap_nil, List.nil_append] at ha
  cases hc : (loadConfig env (World.start fs) "config.json").2.2 with
  | some err =>
    refine ⟨a, 0, 0, 0, 0, ?_⟩
    rw [run_of_config_error env fs err hc, stages_fatalf]
    simp [stages, ha]
  | none =>
    have hc2 : (loadConfig env (World.start fs) "config.json").2
        = ((loadConfig env (World.start fs) "config.json").2.1, none) := Prod.ext rfl hc
    obtain ⟨b, hb⟩ := stages_connectSFTP env (loadConfig env (World.start fs) "config.json").1
      (loadConfig env (World.start fs) "config.json").2.1
    simp only [stages, ha] at hb
    cases hs : (connectSFTP env (loadConfig env (World.start fs) "config.json").1
        (loadConfig env (World.start fs) "config.json").2.1).2 with
    | some err =>
      refine ⟨a, b, 0, 0, 0, ?_⟩
      rw [run_of_connect_error env fs _ err hc2 hs, stages_fatalf]
      simp [stages, hb]
    | none =>
      cases hr : env.readDir (connectSFTP env (loadConfig env (World.start fs) "config.json").1
          (loadConfig env (World.start fs) "config.json").2.1).1
          (loadConfig env (World.start fs) "config.json").2.1.SFTPDirectory with
      | error err =>
        refine ⟨a, b, 1, 0, 0, ?_⟩
        rw [run_of_readDir_error env fs _ err hc2 hs hr, stages_fatalf]
        simp [stages, hb, Event.stage?]
      | ok files =>
        have hl : Listed env fs (loadConfig env (World.start fs) "config.json").2.1 files :=
          ⟨hc2, hs, hr⟩
        have hw : stages (listedWorld env fs (loadConfig env (World.start fs) "config.json").2.1).trace
            = List.replicate a 1 ++ (List.replicate b 2 ++ [3]) := by
          simp [listedWorld, stages, hb, Event.stage?]
        cases hmk : env.mkdirAll (listedWorld env fs (loadConfig env (World.start fs) "config.json").2.1)
          (loadConfig env (World.start fs) "config.json").2.1.LocalDirectory with
        | some err =>
          refine ⟨a, b, 1, 1, 0, ?_⟩
          rw [run_of_mkdir_error env fs _ files err hl hmk, stages_fatalf, emit_trace, stages_append,
            hw]
          simp [stages, Event.stage?]
        | none =>
          obtain ⟨e, he⟩ := stages_mainLoop env (loadConfig env (World.start fs) "config.json").2.1
            files (loopStart env fs (loadConfig env (World.start fs) "config.json").2.1)
          refine ⟨a, b, 1, 1, e, ?_⟩
          have hw2 : stages (loopStart env fs (loadConfig env (World.start fs) "config.json").2.1).trace
              = List.replicate a 1 ++ (List.replicate b 2 ++ [3, 4]) := by
            rw [loopStart, emit_trace, stages_append, hw]
            simp [stages, Event.stage?]
          rw [run_of_mkdir_ok env fs _ files hl hmk]
          simp only [emit_trace, stages_append, he, hw2]
          simp [stages, Event.stage?]

theorem pairwise_le_of_shape (a b c d e : Nat) :
    List.Pairwise (fun x y => x ≤ y)
      (List.replicate a 1 ++ (List.replicate b 2 ++ (List.replicate c 3 ++
          (List.replicate d 4 ++ List.replicate e 5)))) := by
  simp only [List.pairwise_append, List.pairwise_replicate, List.mem_append, List.mem_replicate]
  refine ⟨Or.inr (le_refl _), ⟨Or.inr (le_refl _), ⟨Or.inr (le_refl _), ⟨Or.inr (le_refl _),
    Or.inr (le_refl _), ?_⟩, ?_⟩, ?_⟩, ?_⟩
  all_goals intro x hx y hy; omega

theorem getLast?_fatalf (w : World) (msg : String) :
    (fatalf w msg).trace.getLast? = some (Event.osExit 1) := by
  simp [fatalf]

theorem logLines_fatalf (w : World) (msg : String) :
    logLines (fatalf w msg).trace = logLines w.trace ++ [msg] := by
  simp [fatalf, logLines_append, logLines]

theorem logLines_loadConfig (env : Env) (w : World) (f : String) :
    logLines (loadConfig env w f).1.trace = logLines w.trace := by
  unfold loadConfig
  cases env.osOpen w f with
  | some err => simp [logLines_append, logLines]
  | none => simp [logLines_append, logLines]

theorem logLines_connectSFTP (env : Env) (w : World) (config : Config) :
    logLines (connectSFTP env w config).1.trace = logLines w.trace := by
  unfold connectSFTP
  cases env.sshDial w config.SFTPHost config.SFTPUser config.SFTPPassword with
  | some err => simp [logLines_append, logLines]
  | none =>
    simp only []
    cases env.sftpNewClient (w.emit (Event.sshDial config.SFTPHost config.SFTPUser true)) with
    | some err => simp [logLines_append, logLines]
    | none => simp [logLines_append, logLines]

/-- C4: in every run the operations come in the order of the stages: load the
configuration (1), connect (2), list (3), create the local directory (4), transfer (5).
The run stops in `log.Fatalf` at the first of the first three stages that fails: when
`loadConfig` returns an error only operations of stage 1 were made (no connection is
attempted); when `connectSFTP` returns an error only operations of stages 1 and 2 were
made (no listing is requested); when `client.ReadDir` returns an error only operations
of stages 1 to 3 were made (no local directory is created, nothing is transferred).  In
each case the one logged message is the fatal one and the last event of the run is the
exit with status 1. -/
theorem stages_in_order_and_run_stops_at_first_failure (env : Env) (fs : String → Option Bytes) :
    List.Pairwise (fun x y => x ≤ y) (stages (run env fs).trace) ∧
      (∀ err, (loadConfig env (World.start fs) "config.json").2.2 = some err →
        (∀ s ∈ stages (run env fs).trace, s ≤ 1) ∧
          logLines (run env fs).trace = ["Failed config loading: " ++ err] ∧
          (run env fs).trace.getLast? = some (Event.osExit 1)) ∧
      (∀ config err, (loadConfig env (World.start fs) "config.json").2 = (config, none) →
        (connectSFTP env (loadConfig env (World.start fs) "config.json").1 config).2 = some err →
        (∀ s ∈ stages (run env fs).trace, s ≤ 2) ∧
          logLines (run env fs).trace = ["SFTP connection failure: " ++ err] ∧
          (run env fs).trace.getLast? = some (Event.osExit 1)) ∧
      (∀ config err, (loadConfig env (World.start fs) "config.json").2 = (config, none) →
        (connectSFTP env (loadConfig env (World.start fs) "config.json").1 config).2 = none →
        env.readDir (connectSFTP env (loadConfig env (World.start fs) "config.json").1 config).1
          config.SFTPDirectory = Except.error err →
        (∀ s ∈ stages (run env fs).trace, s ≤ 3) ∧
          logLines (run env fs).trace
            = ["Read directory " ++ config.SFTPDirectory ++ " failed: " ++ err] ∧
          (run env fs).trace.getLast? = some (Event.osExit 1)) := by
  obtain ⟨a, ha⟩ := stages_loadConfig env (World.start fs) "config.json"
  simp only [start_trace, stages, List.filterMap_nil, List.nil_append] at ha
  refine ⟨?_, ?_, ?_, ?_⟩
  · obtain ⟨a, b, c, d, e, h⟩ := stages_run env fs
    rw [h]
    exact pairwise_le_of_shape a b c d e
  · intro err hc
    rw [run_of_config_error env fs err hc]
    refine ⟨?_, ?_, getLast?_fatalf _ _⟩
    · rw [stages_fatalf]
      intro s hs
      simp [stages, ha] at hs
      omega
    · simp [logLines_fatalf, logLines_loadConfig, logLines]
  · intro config err hc hs
    obtain ⟨b, hb⟩ := stages_connectSFTP env (loadConfig env (World.start fs) "config.json").1 config
    simp only [stages, ha] at hb
    rw [run_of_connect_error env fs config err hc hs]
    refine ⟨?_, ?_, getLast?_fatalf _ _⟩
    · rw [stages_fatalf]
      intro s hs
      simp [stages, hb] at hs
      omega
    · simp [logLines_fatalf, logLines_connectSFTP, logLines_loadConfig, logLines]
  · intro config err hc hs hr
    obtain ⟨b, hb⟩ := stages_connectSFTP env (loadConfig env (World.start fs) "config.json").1 config
    simp only [stages, ha] at hb
    rw [run_of_readDir_error env fs config err hc hs hr]
    refine ⟨?_, ?_, getLast?_fatalf _ _⟩
    · rw [stages_fatalf]
      intro s hs
      simp [stages, hb, Event.stage?] at hs
      omega
    · simp [logLines_fatalf, logLines_connectSFTP, logLines_loadConfig, logLines_append, logLines]

theorem stages_in_order_and_run_stops_at_first_failure_witness :
    (stages (run noConfigEnv emptyFS).trace = [1] ∧
        logLines (run noConfigEnv emptyFS).trace
          = ["Failed config loading: " ++ "no such file or directory"]) ∧
      (stages (run noDialEnv emptyFS).trace = [1, 1, 1, 2] ∧
        logLines (run noDialEnv emptyFS).trace
          = ["SFTP connection failure: " ++ "failed to connect to SFTP server: connection refused"]) ∧
      (stages (run noListingEnv emptyFS).trace = [1, 1, 1, 2, 2, 3] ∧
        logLines (run noListingEnv emptyFS).trace
          = ["Read directory " ++ exampleConfig.SFTPDirectory ++ " failed: " ++ "file does not exist"]) :=
  ⟨⟨by decide,
      ((stages_in_order_and_run_stops_at_first_failure noConfigEnv emptyFS).2.1
        "no such file or directory" rfl).2.1⟩,
    ⟨by decide,
      ((stages_in_order_and_run_stops_at_first_failure noDialEnv emptyFS).2.2.1 exampleConfig
        "failed to connect to SFTP server: connection refused" rfl rfl).2.1⟩,
    ⟨by decide,
      ((stages_in_order_and_run_stops_at_first_failure noListingEnv emptyFS).2.2.2 exampleConfig
        "file does not exist" rfl rfl rfl).2.1⟩⟩

/-- C6, on the code: three runs in which the SSH connection was opened and which end in
`log.Fatalf`.  In the first `sftp.NewClient` fails after a successful `ssh.Dial`, in the
second `client.ReadDir` fails, in the third `os.MkdirAll` fails.  Each ends with the exit
with status 1 and none contains a `client.Close()`: `connectSFTP` returns without closing
the connection it dialled, and `os.Exit` does not run the deferred call of `main`.  A run
that returns from `main` does close the client. -/
theorem fatal_exits_leave_the_connection_open :
    ((run noSessionEnv emptyFS).trace
        = [Event.osOpen "config.json" true, Event.jsonDecode true, Event.fileClose "config.json",
            Event.sshDial "host:22" "user" true, Event.sftpNewClient false,
            Event.logPrint "SFTP connection failure: failed to create SFTP client: subsystem request failed",
            Event.osExit 1]) ∧
      ((run noListingEnv emptyFS).trace
        = [Event.osOpen "config.json" true, Event.jsonDecode true, Event.fileClose "config.json",
            Event.sshDial "host:22" "user" true, Event.sftpNewClient true,
            Event.readDir "/backups" false,
            Event.logPrint "Read directory /backups failed: file does not exist",
            Event.osExit 1]) ∧
      ((run noMkdirEnv emptyFS).trace
        = [Event.osOpen "config.json" true, Event.jsonDecode true, Event.fileClose "config.json",
            Event.sshDial "host:22" "user" true, Event.sftpNewClient true,
            Event.readDir "/backups" true, Event.mkdirAll "./out" false,
            Event.logPrint "Failed to create local directory: permission denied",
            Event.osExit 1]) ∧
      Event.clientClose ∉ (run noSessionEnv emptyFS).trace ∧
      Event.clientClose ∉ (run noListingEnv emptyFS).trace ∧
      Event.clientClose ∉ (run noMkdirEnv emptyFS).trace ∧
      Event.clientClose ∈ (run exampleEnv emptyFS).trace := by
  refine ⟨by decide, by decide, by decide, by decide, by decide, by decide, by decide⟩

/-! ## Local files -/

theorem localFS_loadConfig (env : Env) (w : World) (f : String) :
    (loadConfig env w f).1.localFS = w.localFS := by
  unfold loadConfig
  cases env.osOpen w f <;> rfl

theorem localFS_connectSFTP (env : Env) (w : World) (config : Config) :
    (connectSFTP env w config).1.localFS = w.localFS := by
  unfold connectSFTP
  cases env.sshDial w config.SFTPHost config.SFTPUser config.SFTPPassword with
  | some err => rfl
  | none =>
    simp only []
    cases env.sftpNewClient (w.emit (Event.sshDial config.SFTPHost config.SFTPUser true)) <;> rfl

theorem loadConfig_stable (env : Env) (hs : env.Stable) (w1 w2 : World) (f : String) :
    (loadConfig env w1 f).2 = (loadConfig env w2 f).2 := by
  unfold loadConfig
  rw [(hs w1 w2).1]
  cases env.osOpen w2 f with
  | some err => rfl
  | none =>
    simp only []
    rw [(hs (w1.emit (Event.osOpen f true)) (w2.emit (Event.osOpen f true))).2.1]

theorem connectSFTP_stable (env : Env) (hs : env.Stable) (w1 w2 : World) (config : Config) :
    (connectSFTP env w1 config).2 = (connectSFTP env w2 config).2 := by
  unfold connectSFTP
  rw [(hs w1 w2).2.2.1]
  cases env.sshDial w2 config.SFTPHost config.SFTPUser config.SFTPPassword with
  | some err => rfl
  | none =>
    simp only []
    rw [(hs (w1.emit (Event.sshDial config.SFTPHost config.SFTPUser true))
      (w2.emit (Event.sshDial config.SFTPHost config.SFTPUser true))).2.2.2.1]
    cases env.sftpNewClient (w2.emit (Event.sshDial config.SFTPHost config.SFTPUser true)) <;> rfl

/-- In a stable environment a call of `downloadFile` either sets the local file at `p` to
a content that does not depend on the world, or leaves it as it is; and whether it
returns an error does not depend on the world. -/
theorem downloadFile_stable (env : Env) (hs : env.Stable) (r l p : String) :
    (∀ w1 w2, (downloadFile env w1 r l).2 = (downloadFile env w2 r l).2) ∧
      ((∃ v, ∀ w, (downloadFile env w r l).1.localFS p = v) ∨
        (∀ w, (downloadFile env w r l).1.localFS p = w.localFS p)) := by
  have o : ∀ w : World, env.clientOpen (w.emit (Event.downloadFileCall r l)) r
      = env.clientOpen (World.start emptyFS) r := fun w => by
    rw [(hs _ (World.start emptyFS)).2.2.2.2.2.2.1]
  have c : ∀ w : World, env.osCreate ((w.emit (Event.downloadFileCall r l)).emit (Event.clientOpen r true)) l
      = env.osCreate (World.start emptyFS) l := fun w => by
    rw [(hs _ (World.start emptyFS)).2.2.2.2.2.2.2.1]
  have t : ∀ (w : World) (bytes : Bytes), env.writeTo ((((w.emit (Event.downloadFileCall r l)).emit
      (Event.clientOpen r true)).emit (Event.osCreate l true)).write l []) r l bytes
      = env.writeTo (World.start emptyFS) r l bytes := fun w bytes => by
    rw [(hs _ (World.start emptyFS)).2.2.2.2.2.2.2.2]
  cases h1 : env.clientOpen (World.start emptyFS) r with
  | error err =>
    have e := fun w => downloadFile_open_error env w r l err ((o w).trans h1)
    exact ⟨fun w1 w2 => by rw [e w1, e w2], Or.inr fun w => by rw [e w]; rfl⟩
  | ok bytes =>
    cases h2 : env.osCreate (World.start emptyFS) l with
    | some err =>
      have e := fun w => downloadFile_create_error env w r l err bytes ((o w).trans h1)
        ((c w).trans h2)
      exact ⟨fun w1 w2 => by rw [e w1, e w2], Or.inr fun w => by rw [e w]; rfl⟩
    | none =>
      cases h3 : env.writeTo (World.start emptyFS) r l bytes with
      | some ne =>
        have e := fun w => downloadFile_copy_error env w r l ne.2 bytes ne.1 ((o w).trans h1)
          ((c w).trans h2) ((t w bytes).trans h3)
        refine ⟨fun w1 w2 => by rw [e w1, e w2], ?_⟩
        by_cases hp : p = l
        · exact Or.inl ⟨some (bytes.take ne.1), fun w => by rw [e w]; simp [World.write, hp]⟩
        · exact Or.inr fun w => by rw [e w]; simp [World.write, hp]
      | none =>
        have e := fun w => downloadFile_success env w r l bytes ((o w).trans h1)
          ((c w).trans h2) ((t w bytes).trans h3)
        refine ⟨fun w1 w2 => by rw [e w1, e w2], ?_⟩
        by_cases hp : p = l
        · exact Or.inl ⟨some bytes, fun w => by rw [e w]; simp [World.write, hp]⟩
        · exact Or.inr fun w => by rw [e w]; simp [World.write, hp]

/-- In a stable environment the loop either sets the local file at `p` to a content that
does not depend on the world in which it starts, or leaves it as it is. -/
theorem mainLoop_stable (env : Env) (hs : env.Stable) (config : Config) (files : List FileInfo)
    (p : String) :
    (∃ v, ∀ w, (mainLoop env config files w).localFS p = v) ∨
      (∀ w, (mainLoop env config files w).localFS p = w.localFS p) := by
  induction files with
  | nil => exact Or.inr fun w => rfl
  | cons f rest ih =>
    cases hf : f.IsDir with
    | true =>
      rcases ih with ⟨v, hv⟩ | hi
      · exact Or.inl ⟨v, fun w => by rw [mainLoop_cons_dir env config f rest w hf]; exact hv w⟩
      · exact Or.inr fun w => by rw [mainLoop_cons_dir env config f rest w hf]; exact hi w
    | false =>
      obtain ⟨hres, hfs⟩ := downloadFile_stable env hs (pathJoin config.SFTPDirectory f.Name)
        (filepathJoin config.LocalDirectory f.Name) p
      have step : ∀ w, ∃ w2, mainLoop env config (f :: rest) w = mainLoop env config rest w2 ∧
          w2.localFS = (downloadFile env
            (w.emit (Event.stdout (downloadingLine (pathJoin config.SFTPDirectory f.Name)
              (filepathJoin config.LocalDirectory f.Name))))
            (pathJoin config.SFTPDirectory f.Name)
            (filepathJoin config.LocalDirectory f.Name)).1.localFS := by
        intro w
        simp only [mainLoop, hf, if_true]
        split
        · exact ⟨_, rfl, rfl⟩
        · exact ⟨_, rfl, rfl⟩
      rcases ih with ⟨v, hv⟩ | hi
      · refine Or.inl ⟨v, fun w => ?_⟩
        obtain ⟨w2, e, _⟩ := step w
        rw [e]; exact hv w2
      · rcases hfs with ⟨v, hv⟩ | hd
        · refine Or.inl ⟨v, fun w => ?_⟩
          obtain ⟨w2, e, e2⟩ := step w
          rw [e, hi w2, e2]; exact hv _
        · refine Or.inr fun w => ?_
          obtain ⟨w2, e, e2⟩ := step w
          rw [e, hi w2, e2, hd]; rfl

/-- In a stable environment a run either sets the local file at `p` to a content that
does not depend on the local files it starts from, or leaves it as it is. -/
theorem run_stable (env : Env) (hs : env.Stable) (p : String) :
    (∃ v, ∀ fs, (run env fs).localFS p = v) ∨ (∀ fs, (run env fs).localFS p = fs p) := by
  have lc : ∀ fs, (loadConfig env (World.start fs) "config.json").2
      = (loadConfig env (World.start emptyFS) "config.json").2 :=
    fun fs => loadConfig_stable env hs _ _ _
  cases hc : (loadConfig env (World.start emptyFS) "config.json").2.2 with
  | some err =>
    refine Or.inr fun fs => ?_
    rw [run_of_config_error env fs err (by rw [lc fs]; exact hc)]
    simp [fatalf, localFS_loadConfig]
  | none =>
    have hc2 : ∀ fs, (loadConfig env (World.start fs) "config.json").2
        = ((loadConfig env (World.start emptyFS) "config.json").2.1, none) :=
      fun fs => (lc fs).trans (Prod.ext rfl hc)
    have cs : ∀ fs, (connectSFTP env (loadConfig env (World.start fs) "config.json").1
        (loadConfig env (World.start emptyFS) "config.json").2.1).2
        = (connectSFTP env (World.start emptyFS)
          (loadConfig env (World.start emptyFS) "config.json").2.1).2 :=
      fun fs => connectSFTP_stable env hs _ _ _
    cases hsf : (connectSFTP env (World.start emptyFS)
        (loadConfig env (World.start emptyFS) "config.json").2.1).2 with
    | some err =>
      refine Or.inr fun fs => ?_
      rw [run_of_connect_error env fs _ err (hc2 fs) ((cs fs).trans hsf)]
      simp [fatalf, localFS_loadConfig, localFS_connectSFTP]
    | none =>
      have rd : ∀ fs, env.readDir (connectSFTP env (loadConfig env (World.start fs) "config.json").1
          (loadConfig env (World.start emptyFS) "config.json").2.1).1
          (loadConfig env (World.start emptyFS) "config.json").2.1.SFTPDirectory
          = env.readDir (World.start emptyFS)
            (loadConfig env (World.start emptyFS) "config.json").2.1.SFTPDirectory :=
        fun fs => by rw [(hs _ (World.start emptyFS)).2.2.2.2.1]
      cases hr : env.readDir (World.start emptyFS)
          (loadConfig env (World.start emptyFS) "config.json").2.1.SFTPDirectory with
      | error err =>
        refine Or.inr fun fs => ?_
        rw [run_of_readDir_error env fs _ err (hc2 fs) ((cs fs).trans hsf) ((rd fs).trans hr)]
        simp [fatalf, localFS_loadConfig, localFS_connectSFTP]
      | ok files =>
        have hl : ∀ fs, Listed env fs (loadConfig env (World.start emptyFS) "config.json").2.1 files :=
          fun fs => ⟨hc2 fs, (cs fs).trans hsf, (rd fs).trans hr⟩
        have mk : ∀ fs, env.mkdirAll
            (listedWorld env fs (loadConfig env (World.start emptyFS) "config.json").2.1)
            (loadConfig env (World.start emptyFS) "config.json").2.1.LocalDirectory
            = env.mkdirAll (World.start emptyFS)
              (loadConfig env (World.start emptyFS) "config.json").2.1.LocalDirectory :=
          fun fs => by rw [(hs _ (World.start emptyFS)).2.2.2.2.2.1]
        cases hmk : env.mkdirAll (World.start emptyFS)
            (loadConfig env (World.start emptyFS) "config.json").2.1.LocalDirectory with
        | some err =>
          refine Or.inr fun fs => ?_
          rw [run_of_mkdir_error env fs _ files err (hl fs) ((mk fs).trans hmk)]
          simp [fatalf, (listedWorld_trace env fs _ files (hl fs)).2]
        | none =>
          have e : ∀ fs, (run env fs).localFS p
              = (mainLoop env (loadConfig env (World.start emptyFS) "config.json").2.1 files
                  (loopStart env fs (loadConfig env (World.start emptyFS) "config.json").2.1)).localFS
                  p := fun fs => by
            rw [run_of_mkdir_ok env fs _ files (hl fs) ((mk fs).trans hmk)]; rfl
          rcases mainLoop_stable env hs (loadConfig env (World.start emptyFS) "config.json").2.1
            files p with ⟨v, hv⟩ | hi
          · exact Or.inl ⟨v, fun fs => by rw [e fs]; exact hv _⟩
          · refine Or.inr fun fs => ?_
            rw [e fs, hi]
            simp [loopStart, (listedWorld_trace env fs _ files (hl fs)).2]

theorem exampleEnv_stable : exampleEnv.Stable :=
  fun _ _ => ⟨rfl, rfl, rfl, rfl, rfl, rfl, rfl, rfl, rfl⟩

/-- C7, on the code: the configuration, the listing and the bytes of the remote files
are the same at every call, and yet the second run leaves `out/a.txt` with another
content than the first.  The first run writes `[1, 2, 3]`; in the second run the copy of
`a.txt` breaks after one byte, after `os.Create` has truncated the file, and `[1]` is
left.  The same configuration and an unchanged remote directory are therefore not
enough: the outcome of every call has to be the same in both runs. -/
theorem second_run_with_a_broken_copy_changes_a_local_file :
    (∀ w1 w2 : World, brokenCopyEnv.jsonDecode w1 = brokenCopyEnv.jsonDecode w2 ∧
        brokenCopyEnv.readDir w1 = brokenCopyEnv.readDir w2 ∧
        brokenCopyEnv.clientOpen w1 = brokenCopyEnv.clientOpen w2) ∧
      (run brokenCopyEnv emptyFS).localFS "out/a.txt" = some [1, 2, 3] ∧
      (run brokenCopyEnv (run brokenCopyEnv emptyFS).localFS).localFS "out/a.txt" = some [1] ∧
      (run brokenCopyEnv (run brokenCopyEnv emptyFS).localFS).localFS "out/a.txt"
        ≠ (run brokenCopyEnv emptyFS).localFS "out/a.txt" ∧
      logLines (run brokenCopyEnv (run brokenCopyEnv emptyFS).localFS).trace
        = ["Failed to download /backups/a.txt: failed to download file: connection lost"] := by
  refine ⟨fun _ _ => ⟨rfl, rfl, rfl⟩, by decide, by decide, by decide, by decide⟩

/-- C7, amended: in an environment in which every call has the same outcome in both
runs, so that the answers do not depend on the history (the same configuration, the same
connection, an unchanged remote directory, the same outcomes of `os.MkdirAll`,
`os.Create` and the copy), a second run
started on the local files left by the first run leaves every local file with the
content it had after the first run.  Each transfer overwrites: after a call of
`downloadFile` the local file is either as before the call or holds a leading part of
the bytes of the remote file, never the old content followed by new bytes; and after a
call that returns no error it holds exactly the bytes of the remote file. -/
theorem second_run_changes_no_local_file (env : Env) (fs : String → Option Bytes)
    (hs : env.Stable) :
    (∀ p, (run env (run env fs).localFS).localFS p = (run env fs).localFS p) ∧
      (∀ (w : World) (r l : String),
        (downloadFile env w r l).1.localFS l = w.localFS l ∨
          ∃ bytes k, env.clientOpen (w.emit (Event.downloadFileCall r l)) r = Except.ok bytes ∧
            (downloadFile env w r l).1.localFS l = some (bytes.take k)) ∧
      (∀ (w : World) (r l : String), (downloadFile env w r l).2 = none →
        ∃ bytes, env.clientOpen (w.emit (Event.downloadFileCall r l)) r = Except.ok bytes ∧
          (downloadFile env w r l).1.localFS l = some bytes) := by
  refine ⟨fun p => ?_, fun w r l => ?_, fun w r l hnone => ?_⟩
  · rcases run_stable env hs p with ⟨v, hv⟩ | hi
    · rw [hv, hv]
    · rw [hi]
  · cases h1 : env.clientOpen (w.emit (Event.downloadFileCall r l)) r with
    | error err => left; rw [downloadFile_open_error env w r l err h1]; rfl
    | ok bytes =>
      cases h2 : env.osCreate ((w.emit (Event.downloadFileCall r l)).emit (Event.clientOpen r true)) l with
      | some err => left; rw [downloadFile_create_error env w r l err bytes h1 h2]; rfl
      | none =>
        right
        cases h3 : env.writeTo ((((w.emit (Event.downloadFileCall r l)).emit
            (Event.clientOpen r true)).emit (Event.osCreate l true)).write l []) r l bytes with
        | some ne =>
          refine ⟨bytes, ne.1, rfl, ?_⟩
          rw [downloadFile_copy_error env w r l ne.2 bytes ne.1 h1 h2 h3]
          simp [World.write]
        | none =>
          refine ⟨bytes, bytes.length, rfl, ?_⟩
          rw [downloadFile_success env w r l bytes h1 h2 h3]
          simp [World.write]
  · cases h1 : env.clientOpen (w.emit (Event.downloadFileCall r l)) r with
    | error err => rw [downloadFile_open_error env w r l err h1] at hnone; simp at hnone
    | ok bytes =>
      cases h2 : env.osCreate ((w.emit (Event.downloadFileCall r l)).emit (Event.clientOpen r true)) l with
      | some err => rw [downloadFile_create_error env w r l err bytes h1 h2] at hnone; simp at hnone
      | none =>
        cases h3 : env.writeTo ((((w.emit (Event.downloadFileCall r l)).emit
            (Event.clientOpen r true)).emit (Event.osCreate l true)).write l []) r l bytes with
        | some ne =>
          rw [downloadFile_copy_error env w r l ne.2 bytes ne.1 h1 h2 h3] at hnone; simp at hnone
        | none =>
          refine ⟨bytes, rfl, ?_⟩
          rw [downloadFile_success env w r l bytes h1 h2 h3]
          simp [World.write]

theorem second_run_changes_no_local_file_witness :
    exampleEnv.Stable ∧
      staleFS "out/a.txt" = some [9, 9, 9, 9] ∧
      (run exampleEnv staleFS).localFS "out/a.txt" = some [1, 2, 3] ∧
      (run exampleEnv (run exampleEnv staleFS).localFS).localFS "out/a.txt"
        = (run exampleEnv staleFS).localFS "out/a.txt" :=
  ⟨exampleEnv_stable, by decide, by decide,
    (second_run_changes_no_local_file exampleEnv staleFS exampleEnv_stable).1 "out/a.txt"⟩

/-! ## `Clean` on a directory followed by one path element -/

theorem copyElement_length (xs out : List Char) : (copyElement xs out).1.length ≤ xs.length := by
  induction xs generalizing out with
  | nil => simp [copyElement]
  | cons c t ih =>
    simp only [copyElement]
    split
    · simp
    · exact Nat.le_succ_of_le (ih _)

theorem copyElement_append (xs ys out : List Char) :
    copyElement (xs ++ '/' :: ys) out
      = ((copyElement xs out).1 ++ '/' :: ys, (copyElement xs out).2) := by
  induction xs generalizing out with
  | nil => simp [copyElement]
  | cons c t ih =>
    simp only [List.cons_append, copyElement]
    split
    · simp
    · exact ih _

theorem copyElement_of_not_mem (n out : List Char) (h : '/' ∉ n) :
    copyElement n out = ([], out ++ n) := by
  induction n generalizing out with
  | nil => simp [copyElement]
  | cons c t ih =>
    have hc : c ≠ '/' := fun e => h (by simp [e])
    have ht : '/' ∉ t := fun e => h (by simp [e])
    simp [copyElement, hc, ih _ ht]

/-- The result of the loop of `Clean` does not depend on the fuel once the fuel covers the
unread part of the path. -/
theorem cleanLoop_fuel (rooted : Bool) (f1 f2 : Nat) (rest out : List Char) (dd : Nat)
    (h1 : rest.length ≤ f1) (h2 : rest.length ≤ f2) :
    cleanLoop rooted f1 rest out dd = cleanLoop rooted f2 rest out dd := by
  induction f1 generalizing f2 rest out dd with
  | zero =>
    have : rest = [] := List.length_eq_zero.mp (Nat.le_zero.mp h1)
    subst this
    cases f2 <;> simp [cleanLoop]
  | succ a ih =>
    cases f2 with
    | zero =>
      have : rest = [] := List.length_eq_zero.mp (Nat.le_zero.mp h2)
      subst this
      simp [cleanLoop]
    | succ b =>
      cases rest with
      | nil => simp [cleanLoop]
      | cons c t =>
        simp only [List.length_cons, Nat.add_le_add_iff_right] at h1 h2
        have htl : t.tail.length ≤ t.length := by simp
        simp only [cleanLoop]
        split
        · exact ih b t out dd h1 h2
        · split
          · exact ih b t out dd h1 h2
          · split
            · split
              · exact ih b _ _ _ (le_trans htl h1) (le_trans htl h2)
              · split
                · exact ih b _ _ _ (le_trans htl h1) (le_trans htl h2)
                · exact ih b _ _ _ (le_trans htl h1) (le_trans htl h2)
            · rename_i hc _ _
              have hl : ∀ o, (copyElement (c :: t) o).1.length ≤ t.length := by
                intro o
                simp only [copyElement, hc, if_false]
                exact copyElement_length _ _
              exact ih b _ _ _ (le_trans (hl _) h1) (le_trans (hl _) h2)

theorem cleanLoop_nil (rooted : Bool) (f : Nat) (out : List Char) (dd : Nat) :
    cleanLoop rooted f [] out dd = (out, dd) := by
  cases f <;> simp [cleanLoop]

theorem cleanLoop_slash (rooted : Bool) (f : Nat) (t out : List Char) (dd : Nat) :
    cleanLoop rooted (f + 1) ('/' :: t) out dd = cleanLoop rooted f t out dd := by
  simp only [cleanLoop, if_true]

theorem cleanLoop_dot (rooted : Bool) (f : Nat) (c : Char) (t out : List Char) (dd : Nat)
    (h1 : c ≠ '/') (h2 : c = '.' ∧ (t = [] ∨ t.head? = some '/')) :
    cleanLoop rooted (f + 1) (c :: t) out dd = cleanLoop rooted f t out dd := by
  simp only [cleanLoop]
  rw [if_neg h1, if_pos h2]

theorem cleanLoop_dotdot (rooted : Bool) (f : Nat) (c : Char) (t out : List Char) (dd : Nat)
    (h1 : c ≠ '/') (h2 : ¬ (c = '.' ∧ (t = [] ∨ t.head? = some '/')))
    (h3 : c = '.' ∧ t.head? = some '.' ∧ (t.tail = [] ∨ t.tail.head? = some '/')) :
    cleanLoop rooted (f + 1) (c :: t) out dd
      = if dd < out.length then
          cleanLoop rooted f t.tail (out.take (backtrack out dd (out.length - 1))) dd
        else if rooted = false then
          cleanLoop rooted f t.tail ((if 0 < out.length then out ++ ['/'] else out) ++ ['.', '.'])
            ((if 0 < out.length then out ++ ['/'] else out) ++ ['.', '.']).length
        else cleanLoop rooted f t.tail out dd := by
  simp only [cleanLoop]
  rw [if_neg h1, if_neg h2, if_pos h3]

theorem cleanLoop_element (rooted : Bool) (f : Nat) (c : Char) (t out : List Char) (dd : Nat)
    (h1 : c ≠ '/') (h2 : ¬ (c = '.' ∧ (t = [] ∨ t.head? = some '/')))
    (h3 : ¬ (c = '.' ∧ t.head? = some '.' ∧ (t.tail = [] ∨ t.tail.head? = some '/'))) :
    cleanLoop rooted (f + 1) (c :: t) out dd
      = cleanLoop rooted f
          (copyElement (c :: t)
            (if (rooted = true ∧ out.length ≠ 1) ∨ (rooted = false ∧ out.length ≠ 0)
              then out ++ ['/'] else out)).1
          (copyElement (c :: t)
            (if (rooted = true ∧ out.length ≠ 1) ∨ (rooted = false ∧ out.length ≠ 0)
              then out ++ ['/'] else out)).2 dd := by
  simp only [cleanLoop]
  rw [if_neg h1, if_neg h2, if_neg h3]

theorem head?_append_slash (t ys : List Char) :
    ((t ++ '/' :: ys = [] ∨ (t ++ '/' :: ys).head? = some '/') ↔ (t = [] ∨ t.head? = some '/')) ∧
      ((t ++ '/' :: ys).head? = some '.' ↔ t.head? = some '.') := by
  cases t with
  | nil => simp
  | cons a t2 => simp

theorem tail_append_slash (t ys : List Char) (ht : t.head? = some '.') :
    (t ++ '/' :: ys).tail = t.tail ++ '/' :: ys := by
  cases t with
  | nil => simp at ht
  | cons a t2 => simp

/-- The loop of `Clean` treats the end of the path and a slash alike: on a path `xs`
followed by a slash and `ys` it reaches `ys` in the state in which it ends on `xs` alone. -/
theorem cleanLoop_append (rooted : Bool) (n : Nat) :
    ∀ (xs ys out : List Char) (dd f1 f2 f3 : Nat), xs.length ≤ n →
      (xs ++ '/' :: ys).length ≤ f1 → xs.length ≤ f2 → ys.length ≤ f3 →
      cleanLoop rooted f1 (xs ++ '/' :: ys) out dd
        = cleanLoop rooted f3 ys (cleanLoop rooted f2 xs out dd).1
            (cleanLoop rooted f2 xs out dd).2 := by
  have base : ∀ (ys out : List Char) (dd f1 f2 f3 : Nat),
      (([] : List Char) ++ '/' :: ys).length ≤ f1 → ys.length ≤ f3 →
      cleanLoop rooted f1 ([] ++ '/' :: ys) out dd
        = cleanLoop rooted f3 ys (cleanLoop rooted f2 [] out dd).1
            (cleanLoop rooted f2 [] out dd).2 := by
    intro ys out dd f1 f2 f3 h1 h3
    cases f1 with
    | zero => simp at h1
    | succ a =>
      rw [cleanLoop_nil, List.nil_append, cleanLoop_slash]
      exact cleanLoop_fuel rooted a f3 ys out dd (by simpa using h1) h3
  induction n with
  | zero =>
    intro xs ys out dd f1 f2 f3 hn h1 h2 h3
    have : xs = [] := List.length_eq_zero.mp (Nat.le_zero.mp hn)
    subst this
    exact base ys out dd f1 f2 f3 h1 h3
  | succ m ih =>
    intro xs ys out dd f1 f2 f3 hn h1 h2 h3
    cases xs with
    | nil => exact base ys out dd f1 f2 f3 h1 h3
    | cons c t =>
      cases f1 with
      | zero => simp at h1
      | succ a =>
        cases f2 with
        | zero => simp at h2
        | succ b =>
          simp only [List.length_cons, List.cons_append, Nat.add_le_add_iff_right] at hn h1 h2
          have htl : t.tail.length ≤ t.length := by simp
          obtain ⟨hA, hB⟩ := head?_append_slash t ys
          rw [List.cons_append]
          by_cases c1 : c = '/'
          · subst c1
            rw [cleanLoop_slash, cleanLoop_slash]
            exact ih t ys out dd a b f3 hn h1 h2 h3
          · by_cases c2 : c = '.' ∧ (t = [] ∨ t.head? = some '/')
            · rw [cleanLoop_dot rooted a c _ out dd c1 ⟨c2.1, hA.mpr c2.2⟩,
                cleanLoop_dot rooted b c t out dd c1 c2]
              exact ih t ys out dd a b f3 hn h1 h2 h3
            · have c2' : ¬ (c = '.' ∧ (t ++ '/' :: ys = [] ∨ (t ++ '/' :: ys).head? = some '/')) :=
                fun h => c2 ⟨h.1, hA.mp h.2⟩
              by_cases c3 : c = '.' ∧ t.head? = some '.' ∧ (t.tail = [] ∨ t.tail.head? = some '/')
              · have e := tail_append_slash t ys c3.2.1
                have c3' : c = '.' ∧ (t ++ '/' :: ys).head? = some '.' ∧
                    ((t ++ '/' :: ys).tail = [] ∨ (t ++ '/' :: ys).tail.head? = some '/') := by
                  refine ⟨c3.1, hB.mpr c3.2.1, ?_⟩
                  rw [e]
                  exact (head?_append_slash t.tail ys).1.mpr c3.2.2
                have l1 : (t.tail ++ '/' :: ys).length ≤ a := by
                  simp only [List.length_append, List.length_cons] at h1 ⊢
                  omega
                rw [cleanLoop_dotdot rooted a c _ out dd c1 c2' c3',
                  cleanLoop_dotdot rooted b c t out dd c1 c2 c3, e]
                split
                · exact ih t.tail ys _ dd a b f3 (le_trans htl hn) l1 (le_trans htl h2) h3
                · split
                  · exact ih t.tail ys _ _ a b f3 (le_trans htl hn) l1 (le_trans htl h2) h3
                  · exact ih t.tail ys _ _ a b f3 (le_trans htl hn) l1 (le_trans htl h2) h3
              · have c3' : ¬ (c = '.' ∧ (t ++ '/' :: ys).head? = some '.' ∧
                    ((t ++ '/' :: ys).tail = [] ∨ (t ++ '/' :: ys).tail.head? = some '/')) := by
                  intro h
                  have ht := hB.mp h.2.1
                  rw [tail_append_slash t ys ht] at h
                  exact c3 ⟨h.1, ht, (head?_append_slash t.tail ys).1.mp h.2.2⟩
                have hl : ∀ o, (copyElement (c :: t) o).1.length ≤ t.length := by
                  intro o
                  simp only [copyElement, c1, if_false]
                  exact copyElement_length _ _
                have ce : ∀ o, copyElement (c :: (t ++ '/' :: ys)) o
                    = ((copyElement (c :: t) o).1 ++ '/' :: ys, (copyElement (c :: t) o).2) :=
                  fun o => copyElement_append (c :: t) ys o
                rw [cleanLoop_element rooted a c _ out dd c1 c2' c3',
                  cleanLoop_element rooted b c t out dd c1 c2 c3, ce]
                refine ih _ ys _ dd a b f3 (le_trans (hl _) hn) ?_ (le_trans (hl _) h2) h3
                have := hl (if (rooted = true ∧ out.length ≠ 1) ∨ (rooted = false ∧ out.length ≠ 0)
                  then out ++ ['/'] else out)
                simp only [List.length_append, List.length_cons] at h1 ⊢
                omega

/-- The loop of `Clean` on one path element that is neither `.` nor `..`: a slash is
written unless the output is empty (or is the root), then the element. -/
theorem cleanLoop_simple (rooted : Bool) (f : Nat) (n out : List Char) (dd : Nat)
    (hf : n.length ≤ f) (h0 : n ≠ []) (hs : '/' ∉ n) (hd : n ≠ ['.']) (hdd : n ≠ ['.', '.']) :
    cleanLoop rooted f n out dd
      = ((if (rooted = true ∧ out.length ≠ 1) ∨ (rooted = false ∧ out.length ≠ 0)
            then out ++ ['/'] else out) ++ n, dd) := by
  cases n with
  | nil => exact absurd rfl h0
  | cons c t =>
    cases f with
    | zero => simp at hf
    | succ a =>
      have c1 : c ≠ '/' := fun e => hs (by simp [e])
      have ht : '/' ∉ t := fun e => hs (by simp [e])
      have c2 : ¬ (c = '.' ∧ (t = [] ∨ t.head? = some '/')) := by
        rintro ⟨hc, h | h⟩
        · exact hd (by rw [hc, h])
        · cases t with
          | nil => simp at h
          | cons x t2 => simp at h; exact ht (by simp [h])
      have c3 : ¬ (c = '.' ∧ t.head? = some '.' ∧ (t.tail = [] ∨ t.tail.head? = some '/')) := by
        rintro ⟨hc, h, h2⟩
        cases t with
        | nil => simp at h
        | cons x t2 =>
          simp at h
          rcases h2 with h2 | h2
          · simp at h2
            exact hdd (by rw [hc, h, h2])
          · cases t2 with
            | nil => simp at h2
            | cons y t3 => simp at h2; exact ht (by simp [h2])
      rw [cleanLoop_element rooted a c t out dd c1 c2 c3, copyElement_of_not_mem _ _ hs,
        cleanLoop_nil]

theorem backtrack_le (buf : List Char) (dd w : Nat) : backtrack buf dd w ≤ w := by
  induction w with
  | zero => simp [backtrack]
  | succ w ih =>
    simp only [backtrack]
    split
    · exact Nat.le_succ_of_le ih
    · exact le_refl _

theorem backtrack_ge (buf : List Char) (dd w : Nat) (h : dd ≤ w) : dd ≤ backtrack buf dd w := by
  induction w with
  | zero => simpa [backtrack] using h
  | succ w ih =>
    simp only [backtrack]
    split
    · rename_i hc
      exact ih (by omega)
    · exact h

theorem backtrack_stop (buf : List Char) (dd w : Nat) :
    backtrack buf dd w = 0 ∨ backtrack buf dd w ≤ dd ∨
      buf.getD (backtrack buf dd w) '/' = '/' := by
  induction w with
  | zero => simp [backtrack]
  | succ w ih =>
    simp only [backtrack]
    split
    · exact ih
    · rename_i hc
      by_cases h1 : dd < w + 1
      · right; right
        by_contra hne
        exact hc ⟨h1, hne⟩
      · right; left; omega

theorem copyElement_snd (xs o : List Char) :
    ∃ pre, (copyElement xs o).2 = o ++ pre ∧ '/' ∉ pre ∧
      (xs ≠ [] → xs.head? ≠ some '/' → pre ≠ []) := by
  induction xs generalizing o with
  | nil => exact ⟨[], by simp [copyElement]⟩
  | cons c t ih =>
    simp only [copyElement]
    split
    · rename_i hc
      exact ⟨[], by simp, by simp, fun _ h => absurd (by simp [hc]) h⟩
    · rename_i hc
      obtain ⟨pre, h1, h2, _⟩ := ih (o ++ [c])
      refine ⟨c :: pre, by simp [h1], ?_, by simp⟩
      simp only [List.mem_cons, not_or]
      exact ⟨fun e => hc e.symm, h2⟩

theorem cleanInv_rooted_step (out pre : List Char) (dd : Nat) (h : CleanInv true out dd) :
    CleanInv true (out ++ pre) dd := by
  simp only [CleanInv, if_true] at h ⊢
  refine ⟨h.1, ?_⟩
  cases out with
  | nil => simp at h
  | cons x xs => simpa using h.2

theorem cleanInv_rooted_take (out : List Char) (dd k : Nat) (h : CleanInv true out dd)
    (hk : 1 ≤ k) : CleanInv true (out.take k) dd := by
  simp only [CleanInv, if_true] at h ⊢
  refine ⟨h.1, ?_⟩
  cases out with
  | nil => simp at h
  | cons x xs =>
    cases k with
    | zero => omega
    | succ k => simpa using h.2

theorem cleanInv_free_take (out : List Char) (dd k : Nat) (h : CleanInv false out dd)
    (hk : dd ≤ k) (hs : k = 0 ∨ k ≤ dd ∨ out.getD k '/' = '/') :
    CleanInv false (out.take k) dd := by
  simp only [CleanInv, Bool.false_eq_true, if_false] at h ⊢
  obtain ⟨h1, h2, h3, h4⟩ := h
  refine ⟨h1, ?_, ?_, ?_⟩
  · cases out with
    | nil => simp
    | cons x xs =>
      cases k with
      | zero => simp
      | succ k => simpa using h2
  · intro e
    cases out with
    | nil => simp at e
    | cons x xs =>
      cases k with
      | zero => simp at e
      | succ k =>
        simp only [List.take_succ_cons, List.cons.injEq] at e
        obtain ⟨ex, et⟩ := e
        subst ex
        cases xs with
        | nil => exact h3 rfl
        | cons y ys =>
          cases k with
          | succ k => simp at et
          | zero =>
            rcases hs with hs | hs | hs
            · omega
            · omega
            · simp at hs
              exact h4 ys (by rw [hs])
  · intro t e
    cases out with
    | nil => simp at e
    | cons x xs =>
      cases k with
      | zero => simp at e
      | succ k =>
        cases xs with
        | nil => simp at e
        | cons y ys =>
          cases k with
          | zero => simp at e
          | succ k =>
            simp only [List.take_succ_cons, List.cons.injEq] at e
            exact h4 ys (by rw [e.1, e.2.1])

theorem cleanInv_free_append (out pre : List Char) (dd dd2 : Nat) (h : CleanInv false out dd)
    (hd : dd2 = 0 ∨ 2 ≤ dd2) (hp : pre ≠ [])
    (h0 : out = [] → pre.head? ≠ some '/' ∧ pre ≠ ['.'] ∧ ∀ t, pre ≠ '.' :: '/' :: t)
    (h1 : out ≠ [] → pre.head? = some '/') :
    CleanInv false (out ++ pre) dd2 := by
  simp only [CleanInv, Bool.false_eq_true, if_false] at h ⊢
  obtain ⟨_, h2, h3, h4⟩ := h
  cases out with
  | nil => simpa using ⟨hd, h0 rfl⟩
  | cons x xs =>
    have hh := h1 (by simp)
    cases pre with
    | nil => exact absurd rfl hp
    | cons p ps =>
      simp only [List.head?_cons, Option.some.injEq] at hh
      subst hh
      refine ⟨hd, by simpa using h2, by simp, ?_⟩
      intro t e
      cases xs with
      | nil =>
        simp only [List.cons_append, List.nil_append, List.cons.injEq] at e
        exact h3 (by rw [e.1])
      | cons y ys =>
        simp only [List.cons_append, List.cons.injEq] at e
        exact h4 ys (by rw [e.1, e.2.1])

/-- The loop of `Clean` keeps `CleanInv`. -/
theorem cleanLoop_inv (rooted : Bool) (f : Nat) :
    ∀ (rest out : List Char) (dd : Nat), CleanInv rooted out dd →
      CleanInv rooted (cleanLoop rooted f rest out dd).1 (cleanLoop rooted f rest out dd).2 := by
  induction f with
  | zero => intro rest out dd h; simpa [cleanLoop] using h
  | succ a ih =>
    intro rest out dd h
    cases rest with
    | nil => simpa [cleanLoop] using h
    | cons c t =>
      by_cases c1 : c = '/'
      · subst c1
        rw [cleanLoop_slash]
        exact ih t out dd h
      · by_cases c2 : c = '.' ∧ (t = [] ∨ t.head? = some '/')
        · rw [cleanLoop_dot rooted a c t out dd c1 c2]
          exact ih t out dd h
        · by_cases c3 : c = '.' ∧ t.head? = some '.' ∧ (t.tail = [] ∨ t.tail.head? = some '/')
          · rw [cleanLoop_dotdot rooted a c t out dd c1 c2 c3]
            split
            · rename_i hlt
              apply ih
              have hge := backtrack_ge out dd (out.length - 1) (by omega)
              cases rooted with
              | true =>
                have hdd : dd = 1 := by simpa [CleanInv] using h.1
                exact cleanInv_rooted_take out dd _ h (by omega)
              | false =>
                exact cleanInv_free_take out dd _ h hge (backtrack_stop out dd (out.length - 1))
            · split
              · rename_i hr
                subst hr
                apply ih
                have e : (if 0 < out.length then out ++ ['/'] else out) ++ ['.', '.']
                    = out ++ (if 0 < out.length then ['/', '.', '.'] else ['.', '.']) := by
                  split <;> simp
                rw [e]
                refine cleanInv_free_append out _ dd _ h (Or.inr ?_) ?_ ?_ ?_
                · split <;> simp
                · split <;> simp
                · intro ho
                  subst ho
                  simp
                · intro ho
                  have : 0 < out.length := List.length_pos.mpr ho
                  simp [this]
              · exact ih _ out dd h
          · rw [cleanLoop_element rooted a c t out dd c1 c2 c3]
            apply ih
            simp only [copyElement, c1, if_false]
            obtain ⟨pre, hp1, hp2, hp3⟩ := copyElement_snd t
              ((if (rooted = true ∧ out.length ≠ 1) ∨ (rooted = false ∧ out.length ≠ 0)
                then out ++ ['/'] else out) ++ [c])
            rw [hp1]
            cases rooted with
            | true =>
              have e : (if (true = true ∧ out.length ≠ 1) ∨ (true = false ∧ out.length ≠ 0)
                  then out ++ ['/'] else out) ++ [c] ++ pre
                  = out ++ ((if out.length ≠ 1 then ['/'] else []) ++ c :: pre) := by
                by_cases hl : out.length = 1 <;> simp [hl]
              rw [e]
              exact cleanInv_rooted_step out _ dd h
            | false =>
              have e : (if (false = true ∧ out.length ≠ 1) ∨ (false = false ∧ out.length ≠ 0)
                  then out ++ ['/'] else out) ++ [c] ++ pre
                  = out ++ ((if out.length ≠ 0 then ['/'] else []) ++ c :: pre) := by
                by_cases hl : out.length = 0 <;> simp [hl]
              rw [e]
              have hd : dd = 0 ∨ 2 ≤ dd := by
                have := h
                simp only [CleanInv, Bool.false_eq_true, if_false] at this
                exact this.1
              refine cleanInv_free_append out _ dd dd h hd ?_ ?_ ?_
              · split <;> simp
              · intro ho
                subst ho
                simp only [List.length_nil, ne_eq, not_true_eq_false, if_false, List.nil_append,
                  List.head?_cons, Option.some.injEq, List.cons.injEq, not_and]
                refine ⟨c1, ?_, ?_⟩
                · intro hc hpre
                  have ht : t ≠ [] ∧ t.head? ≠ some '/' := by
                    constructor
                    · intro e; exact c2 ⟨hc, Or.inl e⟩
                    · intro e; exact c2 ⟨hc, Or.inr e⟩
                  exact hp3 ht.1 ht.2 hpre
                · intro t2 _ hpre
                  exact hp2 (by rw [hpre]; simp)
              · intro ho
                have : out.length ≠ 0 := fun e => ho (List.length_eq_zero.mp e)
                simp [this]

theorem cleanChars_simple (n : List Char) (h0 : n ≠ []) (hs : '/' ∉ n) (hd : n ≠ ['.'])
    (hdd : n ≠ ['.', '.']) : cleanChars n = n := by
  have hh : n.head? ≠ some '/' := by
    cases n with
    | nil => simp
    | cons c t => simp; intro e; exact hs (by simp [e])
  have hl : n.length ≠ 0 := fun e => h0 (List.length_eq_zero.mp e)
  simp [cleanChars, h0, hh, cleanLoop_simple false n.length n [] 0 (le_refl _) h0 hs hd hdd, hl]

theorem cleanChars_rooted (t : List Char) :
    cleanChars ('/' :: t) = (cleanLoop true (t.length + 1) t ['/'] 1).1 ∧
      (cleanLoop true (t.length + 1) t ['/'] 1).1.head? = some '/' := by
  have inv := cleanLoop_inv true (t.length + 1) t ['/'] 1 (by simp [CleanInv])
  simp only [CleanInv, if_true] at inv
  refine ⟨?_, inv.2⟩
  have hl : (cleanLoop true (t.length + 1) t ['/'] 1).1 ≠ [] := by
    intro e
    rw [e] at inv
    simp at inv
  simp [cleanChars, hl]

theorem cleanChars_free (c : Char) (t : List Char) (hc : c ≠ '/') :
    cleanChars (c :: t)
        = (if (cleanLoop false (t.length + 1) (c :: t) [] 0).1 = [] then ['.']
            else (cleanLoop false (t.length + 1) (c :: t) [] 0).1) ∧
      (cleanLoop false (t.length + 1) (c :: t) [] 0).1.head? ≠ some '/' ∧
      (cleanLoop false (t.length + 1) (c :: t) [] 0).1 ≠ ['.'] := by
  have inv := cleanLoop_inv false (t.length + 1) (c :: t) [] 0 (by simp [CleanInv])
  simp only [CleanInv, Bool.false_eq_true, if_false] at inv
  refine ⟨?_, inv.2.1, inv.2.2.1⟩
  simp [cleanChars, hc]

/-- The result of `Clean` on a non-empty directory followed by a slash and one path element that is
neither `.` nor `..`: the cleaned directory, a slash unless the cleaned directory is `.`
or `/`, and the element. -/
theorem cleanChars_append_simple (d n : List Char) (hne : d ≠ []) (h0 : n ≠ []) (hs : '/' ∉ n)
    (hd : n ≠ ['.']) (hdd : n ≠ ['.', '.']) :
    cleanChars (d ++ '/' :: n)
      = if cleanChars d = ['.'] then n
        else if cleanChars d = ['/'] then '/' :: n
        else cleanChars d ++ '/' :: n := by
  cases d with
  | nil => exact absurd rfl hne
  | cons c t =>
    have hn0 : n.length ≠ 0 := fun e => h0 (List.length_eq_zero.mp e)
    by_cases hc : c = '/'
    · subst hc
      obtain ⟨e2, hh⟩ := cleanChars_rooted t
      obtain ⟨e1, _⟩ := cleanChars_rooted (t ++ '/' :: n)
      have app := cleanLoop_append true t.length t n ['/'] 1 ((t ++ '/' :: n).length + 1)
        (t.length + 1) n.length (le_refl _) (by simp) (by simp) (le_refl _)
      rw [cleanLoop_simple true n.length n _ _ (le_refl _) h0 hs hd hdd] at app
      rw [List.cons_append, e1, e2, app]
      generalize (cleanLoop true (t.length + 1) t ['/'] 1).1 = o at hh
      cases o with
      | nil => simp at hh
      | cons x xs =>
        simp only [List.head?_cons, Option.some.injEq] at hh
        subst hh
        by_cases hx : xs = []
        · subst hx
          simp
        · have hl : xs.length ≠ 0 := fun e => hx (List.length_eq_zero.mp e)
          simp [hx, hl]
    · obtain ⟨e2, i1, i2⟩ := cleanChars_free c t hc
      obtain ⟨e1, _, _⟩ := cleanChars_free c (t ++ '/' :: n) hc
      have app := cleanLoop_append false (c :: t).length (c :: t) n [] 0
        ((t ++ '/' :: n).length + 1) (t.length + 1) n.length (le_refl _) (by simp)
        (by simp) (le_refl _)
      rw [cleanLoop_simple false n.length n _ _ (le_refl _) h0 hs hd hdd] at app
      rw [List.cons_append] at app
      rw [List.cons_append, e1, e2, app]
      generalize (cleanLoop false (t.length + 1) (c :: t) [] 0).1 = o at i1 i2
      by_cases ho : o = []
      · subst ho
        simp [h0]
      · have hl : o.length ≠ 0 := fun e => ho (List.length_eq_zero.mp e)
        have i3 : o ≠ ['/'] := fun e => i1 (by rw [e]; rfl)
        simp [hl, i2, i3, ho]

theorem joinChars_simple (d n : List Char) (h0 : n ≠ []) (hs : '/' ∉ n) (hd : n ≠ ['.'])
    (hdd : n ≠ ['.', '.']) :
    joinChars [d, n]
      = if cleanChars d = ['.'] then n
        else if cleanChars d = ['/'] then '/' :: n
        else cleanChars d ++ '/' :: n := by
  by_cases hne : d = []
  · subst hne
    have e : cleanChars [] = ['.'] := rfl
    rw [e, if_pos rfl]
    simp only [joinChars, joinSlash, ne_eq, not_true_eq_false, if_false, h0, not_false_eq_true,
      if_true]
    exact cleanChars_simple n h0 hs hd hdd
  · rw [← cleanChars_append_simple d n hne h0 hs hd hdd]
    simp [joinChars, joinSlash, hne]

theorem takeWhile_append_stop (p : Char → Bool) (l r : List Char) (a : Char)
    (hl : ∀ x ∈ l, p x = true) (ha : p a = false) : (l ++ a :: r).takeWhile p = l := by
  induction l with
  | nil => simp [List.takeWhile, ha]
  | cons x xs ih =>
    have hx : p x = true := hl x (by simp)
    simp [List.takeWhile, hx, ih (fun y hy => hl y (by simp [hy]))]

theorem takeWhile_all (p : Char → Bool) (l : List Char) (hl : ∀ x ∈ l, p x = true) :
    l.takeWhile p = l := by
  induction l with
  | nil => rfl
  | cons x xs ih =>
    have hx : p x = true := hl x (by simp)
    simp [List.takeWhile, hx, ih (fun y hy => hl y (by simp [hy]))]

/-- The result of `filepath.Base` on a path that ends with a path element `n`, alone or after a slash. -/
theorem baseChars_simple (n : List Char) (h0 : n ≠ []) (hs : '/' ∉ n) :
    baseChars n = n ∧ ∀ x, baseChars (x ++ '/' :: n) = n := by
  have hrev : ∀ y ∈ n.reverse, (decide (y ≠ '/')) = true := by
    intro y hy
    have : y ∈ n := List.mem_reverse.mp hy
    simp only [ne_eq, decide_not, Bool.not_eq_eq_eq_not, Bool.not_true, decide_eq_false_iff_not]
    intro e; exact hs (e ▸ this)
  have hdrop : ∀ r, (n.reverse ++ r).dropWhile (fun c => decide (c = '/')) = n.reverse ++ r := by
    intro r
    cases hh : n.reverse with
    | nil => exact absurd (List.reverse_eq_nil_iff.mp hh) h0
    | cons y ys =>
      have hy : y ≠ '/' := by
        have := hrev y (by rw [hh]; simp)
        simpa using this
      simp [List.dropWhile, hy]
  constructor
  · have e1 : n.reverse.dropWhile (fun c => decide (c = '/')) = n.reverse := by
      simpa using hdrop []
    simp only [baseChars, h0, if_false, e1, List.reverse_reverse]
    rw [takeWhile_all _ _ hrev]
    simp [h0]
  · intro x
    have e1 : (x ++ '/' :: n).reverse = n.reverse ++ '/' :: x.reverse := by simp
    have e2 : (n.reverse ++ '/' :: x.reverse).takeWhile (fun c => decide (c ≠ '/')) = n.reverse :=
      takeWhile_append_stop _ _ _ _ hrev (by simp)
    have hne : x ++ '/' :: n ≠ [] := by simp
    simp only [baseChars, hne, if_false, e1, hdrop, List.reverse_append, List.reverse_reverse,
      List.reverse_cons, List.append_assoc, List.singleton_append]
    rw [e2, List.reverse_reverse, if_neg h0]

theorem string_dot : (".": String) = String.mk ['.'] := rfl

theorem string_slash : ("/" : String) = String.mk ['/'] := rfl

/-- The local path of an entry with a simple name, on characters and on strings. -/
theorem filepathJoin_simple (dir name : String) (hn : SimpleName name) :
    filepathJoin dir name = directlyInside dir name ∧
      filepathBase (filepathJoin dir name) = name := by
  obtain ⟨h0, hs, hd, hdd⟩ := hn
  have hj := joinChars_simple dir.data name.data h0 hs hd hdd
  obtain ⟨b1, b2⟩ := baseChars_simple name.data h0 hs
  have c1 : Clean dir = "." ↔ cleanChars dir.data = ['.'] := by
    rw [string_dot, Clean]
    exact ⟨fun h => congrArg String.data h, fun h => congrArg String.mk h⟩
  have c2 : Clean dir = "/" ↔ cleanChars dir.data = ['/'] := by
    rw [string_slash, Clean]
    exact ⟨fun h => congrArg String.data h, fun h => congrArg String.mk h⟩
  constructor
  · apply String.ext
    simp only [filepathJoin, directlyInside, hj]
    by_cases k1 : cleanChars dir.data = ['.']
    · simp [k1, c1.mpr k1]
    · by_cases k2 : cleanChars dir.data = ['/']
      · simp [k1, k2, c2.mpr k2, mt c1.mp k1, String.data_append, string_slash]
      · rw [if_neg k1, if_neg k2, if_neg (mt c1.mp k1), if_neg (mt c2.mp k2)]
        simp [String.data_append, string_slash, Clean]
  · apply String.ext
    simp only [filepathBase, filepathJoin, hj]
    by_cases k1 : cleanChars dir.data = ['.']
    · simp [k1, b1]
    · by_cases k2 : cleanChars dir.data = ['/']
      · simpa [k1, k2] using b2 []
      · simpa [k1, k2] using b2 (cleanChars dir.data)

/-- C8, on the code: an entry that is not a directory and is reported under the name `..`
is written to `filepath.Join("./out", "..")`, which is `.`: the local path is not inside
the local directory `./out` and its base name is `.`, not the name of the entry. -/
theorem entry_named_dotdot_leaves_the_local_directory :
    FileInfo.mk ".." false ∈ [FileInfo.mk ".." false] ∧
      filepathJoin exampleConfig.LocalDirectory ".." = "." ∧
      filepathBase (filepathJoin exampleConfig.LocalDirectory "..") = "." ∧
      filepathBase (filepathJoin exampleConfig.LocalDirectory "..") ≠ ".." ∧
      attempts (run dotdotEnv emptyFS).trace = [("/", ".")] := by
  refine ⟨by decide, by decide, by decide, by decide, by decide⟩

/-- C8, amended: for every configuration and every entry that is not a directory and
whose name is one path element (not empty, without a slash, neither `.` nor `..`), the
local path `filepath.Join(LocalDirectory, name)` is the file of that name directly inside
the cleaned local directory, and its base name is the name of the entry.  The loop
attempts the entry once, with this local path, in every world, whatever local files
exist; and a call of `downloadFile` that returns no error leaves the bytes of the remote
file at the local path, whatever was there before. -/
theorem simple_name_maps_to_the_file_of_that_name (config : Config) (name : String)
    (hn : SimpleName name) :
    filepathJoin config.LocalDirectory name = directlyInside config.LocalDirectory name ∧
      filepathBase (filepathJoin config.LocalDirectory name) = name ∧
      (∀ (env : Env) (rest : List FileInfo) (w : World),
        attempts (mainLoop env config (FileInfo.mk name false :: rest) w).trace
          = attempts w.trace ++
            (pathJoin config.SFTPDirectory name, filepathJoin config.LocalDirectory name) ::
              (rest.filter (fun f => f.IsDir = false)).map
                (fun f => (pathJoin config.SFTPDirectory f.Name,
                  filepathJoin config.LocalDirectory f.Name))) ∧
      (∀ (env : Env) (w : World) (r : String),
        (downloadFile env w r (filepathJoin config.LocalDirectory name)).2 = none →
        ∃ bytes,
          env.clientOpen
            (w.emit (Event.downloadFileCall r (filepathJoin config.LocalDirectory name))) r
            = Except.ok bytes ∧
          (downloadFile env w r (filepathJoin config.LocalDirectory name)).1.localFS
            (filepathJoin config.LocalDirectory name) = some bytes) := by
  obtain ⟨h1, h2⟩ := filepathJoin_simple config.LocalDirectory name hn
  refine ⟨h1, h2, fun env rest w => ?_, fun env w r hnone => ?_⟩
  · rw [attempts_mainLoop]
    simp [regularFiles, pathsOf]
  · generalize filepathJoin config.LocalDirectory name = l at hnone ⊢
    rcases downloadFile_cases env w r l with ⟨e, h⟩ | ⟨e, h⟩ | ⟨e, c, h⟩ | ⟨c, h⟩
    · rw [h] at hnone; simp at hnone
    · rw [h] at hnone; simp at hnone
    · rw [h] at hnone; simp at hnone
    · cases ho : env.clientOpen (w.emit (Event.downloadFileCall r l)) r with
      | error err => rw [downloadFile_open_error env w r l err ho] at hnone; simp at hnone
      | ok bytes =>
        cases hc : env.osCreate ((w.emit (Event.downloadFileCall r l)).emit
            (Event.clientOpen r true)) l with
        | some err =>
          rw [downloadFile_create_error env w r l err bytes ho hc] at hnone; simp at hnone
        | none =>
          cases hw : env.writeTo ((((w.emit (Event.downloadFileCall r l)).emit
              (Event.clientOpen r true)).emit (Event.osCreate l true)).write l []) r l bytes with
          | some ne =>
            rw [downloadFile_copy_error env w r l ne.2 bytes ne.1 ho hc hw] at hnone
            simp at hnone
          | none =>
            refine ⟨bytes, rfl, ?_⟩
            rw [downloadFile_success env w r l bytes ho hc hw]
            simp [World.write]

theorem simple_name_maps_to_the_file_of_that_name_witness :
    SimpleName "a.txt" ∧
      filepathJoin exampleConfig.LocalDirectory "a.txt" = "out/a.txt" ∧
      filepathBase (filepathJoin exampleConfig.LocalDirectory "a.txt") = "a.txt" :=
  have h : SimpleName "a.txt" := by unfold SimpleName; decide
  ⟨h, (simple_name_maps_to_the_file_of_that_name exampleConfig "a.txt" h).1.trans (by decide),
    (simple_name_maps_to_the_file_of_that_name exampleConfig "a.txt" h).2.1⟩

/-! ## Every pattern of failures occurs -/

theorem scriptedEnv_downloadFile (config : Config) (files : List FileInfo) (fails : List Bool)
    (w : World) (r l : String) :
    (downloadFile (scriptedEnv config files fails) w r l).2.isSome
      = fails.getD (attempts w.trace).length false := by
  cases hb : fails.getD (attempts w.trace).length false with
  | true =>
    have ho : (scriptedEnv config files fails).clientOpen (w.emit (Event.downloadFileCall r l)) r
        = Except.error "denied" := by
      have hb2 := hb
      simp only [List.getD_eq_getElem?_getD] at hb2
      simp [scriptedEnv, attempts_append, attempts, hb2]
    rw [downloadFile_open_error _ w r l "denied" ho]
    rfl
  | false =>
    have ho : (scriptedEnv config files fails).clientOpen (w.emit (Event.downloadFileCall r l)) r
        = Except.ok [] := by
      have hb2 := hb
      simp only [List.getD_eq_getElem?_getD] at hb2
      simp [scriptedEnv, attempts_append, attempts, hb2]
    rw [downloadFile_success _ w r l [] ho rfl rfl]
    rfl

theorem scriptedEnv_loopResults (config : Config) (files0 : List FileInfo) (fails : List Bool)
    (files : List FileInfo) (w : World) :
    (loopResults (scriptedEnv config files0 fails) config files w).map (fun x => x.2.2.isSome)
      = (List.range (regularFiles files).length).map
          (fun i => fails.getD ((attempts w.trace).length + i) false) := by
  induction files generalizing w with
  | nil => simp [loopResults, regularFiles]
  | cons f rest ih =>
    cases hf : f.IsDir with
    | true =>
      have e : regularFiles (f :: rest) = regularFiles rest := by simp [regularFiles, hf]
      rw [e, ← ih w]
      simp [loopResults, hf]
    | false =>
      have e : regularFiles (f :: rest) = f :: regularFiles rest := by simp [regularFiles, hf]
      have hd := scriptedEnv_downloadFile config files0 fails
        (w.emit (Event.stdout (downloadingLine (pathJoin config.SFTPDirectory f.Name)
          (filepathJoin config.LocalDirectory f.Name))))
        (pathJoin config.SFTPDirectory f.Name) (filepathJoin config.LocalDirectory f.Name)
      have ha : attempts (w.emit (Event.stdout (downloadingLine
          (pathJoin config.SFTPDirectory f.Name)
          (filepathJoin config.LocalDirectory f.Name)))).trace = attempts w.trace := by
        simp [attempts_append, attempts]
      rw [ha] at hd
      rw [e, List.length_cons, List.range_succ_eq_map, List.map_cons, List.map_map]
      simp only [loopResults, hf, if_true]
      split
      · rename_i err he
        rw [he] at hd
        simp only [List.map_cons, Option.isSome_some, Nat.add_zero, ih]
        rw [← hd]
        congr 1
        apply List.map_congr_left
        intro i _
        simp [attempts_append, attempts_downloadFile, attempts, ha]
        rw [Nat.add_assoc, Nat.add_comm 1 i]
      · rename_i he
        rw [he] at hd
        simp only [List.map_cons, Option.isSome_none, Nat.add_zero, ih]
        rw [← hd]
        congr 1
        apply List.map_congr_left
        intro i _
        simp [attempts_append, attempts_downloadFile, attempts]
        rw [Nat.add_assoc, Nat.add_comm 1 i]

/-- Every assignment of success and failure to the calls of `downloadFile` is produced by
some environment: for a listing with F non-directory entries and any list of F booleans
there is an environment in which the run reaches its loop and call `i` of `downloadFile`
returns an error exactly when the boolean `i` is `true`. -/
theorem every_pattern_of_failures_occurs (config : Config) (files : List FileInfo)
    (fails : List Bool) (hlen : fails.length = (regularFiles files).length) :
    Listed (scriptedEnv config files fails) emptyFS config files ∧
      (scriptedEnv config files fails).mkdirAll
        (listedWorld (scriptedEnv config files fails) emptyFS config) config.LocalDirectory = none ∧
      (loopResults (scriptedEnv config files fails) config files
        (loopStart (scriptedEnv config files fails) emptyFS config)).map (fun x => x.2.2.isSome)
        = fails := by
  have hl : Listed (scriptedEnv config files fails) emptyFS config files := ⟨rfl, rfl, rfl⟩
  refine ⟨hl, rfl, ?_⟩
  rw [scriptedEnv_loopResults]
  have h0 : attempts (loopStart (scriptedEnv config files fails) emptyFS config).trace = [] := by
    simp [loopStart, (listedWorld_trace _ emptyFS config files hl).1, attempts]
  rw [h0, ← hlen]
  apply List.ext_getElem
  · simp
  · intro i h1 h2
    simp [List.getD_eq_getElem?_getD, h2]

theorem every_pattern_of_failures_occurs_witness :
    (loopResults (scriptedEnv exampleConfig exampleListing [true, false]) exampleConfig
      exampleListing
      (loopStart (scriptedEnv exampleConfig exampleListing [true, false]) emptyFS
        exampleConfig)).map (fun x => x.2.2.isSome) = [true, false] :=
  (every_pattern_of_failures_occurs exampleConfig exampleListing [true, false] rfl).2.2

end Backupify
